import Mathlib

/-!
Verification model of the Colpensiones PDF table extractor
(`pdf_table_extractor.py`).  The PDF layout engine (pdfplumber) is out of
scope: a page is modelled as the list of raw tables it yields plus its
extracted text.  Python floats are modelled as exact decimal numbers
(`Dec` below); every float appearing in this program is parsed from a
decimal literal and only compared against decimal constants, where the
two semantics agree.
-/

/-- An exact decimal number `num / 10^exp`, used to model the Python
floats produced by the extractor.  Values built through `Dec.mk'` are
normalized (no trailing zeros in the mantissa unless `exp = 0`), so
structural equality coincides with numeric equality. -/
structure Dec where
  num : Int
  exp : Nat
deriving DecidableEq

/-- Strip factors of 10 shared by the mantissa and the exponent. -/
def stripTens : Nat → Nat → Nat × Nat
  | n, 0 => (n, 0)
  | n, e+1 => if n % 10 = 0 then stripTens (n / 10) e else (n, e+1)

/-- Build a normalized decimal from a mantissa and exponent. -/
def Dec.mk' (num : Int) (exp : Nat) : Dec :=
  let p := stripTens num.natAbs exp
  ⟨if num < 0 then -(p.1 : Int) else (p.1 : Int), p.2⟩

/-- The decimal denoting a natural number. -/
def Dec.ofNat (n : Nat) : Dec := ⟨n, 0⟩

/-- Numeric strict order on decimals, by cross multiplication. -/
def Dec.blt (a b : Dec) : Bool := a.num * (10 : Int) ^ b.exp < b.num * (10 : Int) ^ a.exp

/-- Python's whitespace set for `str.strip` (the characters this input
can actually contain). -/
def pyIsSpace (c : Char) : Bool :=
  c = ' ' || c = '\t' || c = '\n' || c = '\r' || c = '\x0b' || c = '\x0c'

/-- `str.strip()` on a character list. -/
def pyStripList (l : List Char) : List Char :=
  ((l.dropWhile pyIsSpace).reverse.dropWhile pyIsSpace).reverse

/-- `str.strip()`. -/
def pyStrip (s : String) : String := ⟨pyStripList s.toList⟩

/-- `str.lower()` restricted to the characters occurring in this
program's header labels and indicators (ASCII plus the Spanish accented
capitals). -/
def pyLowerChar (c : Char) : Char :=
  if c = 'Á' then 'á' else if c = 'É' then 'é' else if c = 'Í' then 'í'
  else if c = 'Ó' then 'ó' else if c = 'Ú' then 'ú' else if c = 'Ñ' then 'ñ'
  else if c = 'Ü' then 'ü' else c.toLower

/-- `str.lower()`. -/
def pyLower (s : String) : String := ⟨s.toList.map pyLowerChar⟩

/-- Substring test on character lists (Python's `sub in hay`). -/
def subInList (sub : List Char) : List Char → Bool
  | [] => sub.isEmpty
  | c :: t => sub.isPrefixOf (c :: t) || subInList sub (t : List Char)

/-- Python's `sub in hay` on strings. -/
def pyContains (hay sub : String) : Bool := subInList sub.toList hay.toList

/-- `str.split(c)` on character lists: split at every separator, keeping
empty fields. -/
def splitOnCharList (sep : Char) : List Char → List (List Char)
  | [] => [[]]
  | c :: t =>
    let r := splitOnCharList sep t
    if c = sep then [] :: r
    else match r with
      | h :: rest => (c :: h) :: rest
      | [] => [[c]]

/-- `str.split(c)`. -/
def pySplit (s : String) (sep : Char) : List String :=
  (splitOnCharList sep s.toList).map String.mk

/-- `str.replace(old, new)` for single characters, as used by the
cleaners (removal is replacement by the empty string, modelled by
`pyRemoveChar`). -/
def pyRemoveChar (s : String) (c : Char) : String :=
  ⟨s.toList.filter (fun d => !(d = c))⟩

/-- `str.isdigit()` (the inputs are ASCII digit strings). -/
def pyIsDigitStr (s : String) : Bool :=
  !s.toList.isEmpty && s.toList.all Char.isDigit

/-- Value of a list of ASCII digits. -/
def digitsToNat (l : List Char) : Nat :=
  l.foldl (fun a c => a * 10 + (c.toNat - 48)) 0

/-- Python's `float(s)` on the separator-free numeric strings this
program feeds it (optional sign, digits with at most one dot; the
cleaners never produce exponents, infinities or NaN). `none` models the
`ValueError` branch. -/
def pyFloat (s : String) : Option Dec :=
  let l := pyStripList s.toList
  let (sgn, l1) : Bool × List Char :=
    match l with
    | '-' :: t => (true, t)
    | '+' :: t => (false, t)
    | t => (false, t)
  let ip := l1.takeWhile Char.isDigit
  let r1 := l1.dropWhile Char.isDigit
  match r1 with
  | [] => if ip.isEmpty then none
          else some (Dec.mk' (if sgn then -(digitsToNat ip : Int) else (digitsToNat ip : Int)) 0)
  | '.' :: r2 =>
    let fp := r2.takeWhile Char.isDigit
    let r3 := r2.dropWhile Char.isDigit
    if !r3.isEmpty || (ip.isEmpty && fp.isEmpty) then none
    else
      let m : Nat := digitsToNat (ip ++ fp)
      some (Dec.mk' (if sgn then -(m : Int) else (m : Int)) fp.length)
  | _ => none

/-- Python's `int(s)`: optional sign and a nonempty digit string, after
stripping whitespace.  `none` models the `ValueError` branch. -/
def pyInt (s : String) : Option Int :=
  let l := pyStripList s.toList
  let (sgn, l1) : Bool × List Char :=
    match l with
    | '-' :: t => (true, t)
    | '+' :: t => (false, t)
    | t => (false, t)
  if l1.isEmpty || !l1.all Char.isDigit then none
  else some (if sgn then -(digitsToNat l1 : Int) else (digitsToNat l1 : Int))

/-- Python's `round(x, 2)`.  Every value this program rounds already has
at most two decimal places (the cleaners strip or keep at most a
two-digit decimal part), where rounding is the identity; the fallback
branch rounds the mantissa half-up. -/
def pyRound2 (d : Dec) : Dec :=
  if d.exp ≤ 2 then d
  else
    let k : Nat := 10 ^ (d.exp - 2)
    let q : Nat := (d.num.natAbs + k / 2) / k
    Dec.mk' (if d.num < 0 then -(q : Int) else (q : Int)) 2

/-- One attempt of the regex `\d{minRun,},\d{2}` at the head of the
input: a maximal digit run (backtracking inside the run can never reach
the comma, so the run must be maximal), a comma and two digits.  Returns
the matched text and the remaining input. -/
def tryCommaMatch (minRun : Nat) (l : List Char) : Option (List Char × List Char) :=
  let run := l.takeWhile Char.isDigit
  let rest := l.dropWhile Char.isDigit
  if run.length < minRun then none
  else match rest with
    | ',' :: d1 :: d2 :: rest2 =>
      if d1.isDigit && d2.isDigit then some (run ++ ',' :: d1 :: [d2], rest2) else none
    | _ => none

/-- `re.findall` for the patterns `(\d+,\d{2})` (`minRun = 1`) and
`(\d{4,},\d{2})` (`minRun = 4`): scan left to right, on failure advance
one character, on success resume after the match.  The fuel starts at the
input length and dominates the characters consumed, so it never runs out
before the input does. -/
def findallCommaAux (minRun : Nat) : Nat → List Char → List (List Char)
  | 0, _ => []
  | _, [] => []
  | fuel+1, c :: t =>
    match tryCommaMatch minRun (c :: t) with
    | some p => p.1 :: findallCommaAux minRun fuel p.2
    | none => findallCommaAux minRun fuel t

/-- `re.findall` for `(\d{minRun,},\d{2})` on a character list. -/
def findallComma (minRun : Nat) (l : List Char) : List (List Char) :=
  findallCommaAux minRun l.length l

/-- `re.findall` for `(\d+)`: the maximal digit runs of the input
(fuelled structural recursion, fuel = input length). -/
def digitRunsAux : Nat → List Char → List (List Char)
  | 0, _ => []
  | _, [] => []
  | fuel+1, c :: t =>
    if c.isDigit then (c :: t.takeWhile Char.isDigit) :: digitRunsAux fuel (t.dropWhile Char.isDigit)
    else digitRunsAux fuel t

/-- `re.findall` for `(\d+)` on a character list. -/
def digitRuns (l : List Char) : List (List Char) :=
  digitRunsAux l.length l

/-- Greedy consumption of `(?:\.\d{3})*`: pairs of matched text and
remaining input. -/
def repsConsume : List Char → List Char × List Char
  | '.' :: a :: b :: c :: r2 =>
    if a.isDigit && b.isDigit && c.isDigit then
      let p := repsConsume r2
      ('.' :: a :: b :: c :: p.1, p.2)
    else ([], '.' :: a :: b :: c :: r2)
  | r => ([], r)

/-- One attempt of `\d{1,3}(?:\.\d{3})*,\d{2}` at the head of the input.
If the leading digit run is longer than three characters no split of the
quantifiers can place the comma, so the attempt fails; otherwise the run
is consumed whole, then the greedy dotted groups, then the comma and two
digits (backtracking the groups never helps: a shorter group prefix is
followed by a dot, not a comma). -/
def tryFullMatch (l : List Char) : Option (List Char × List Char) :=
  let run := l.takeWhile Char.isDigit
  let rest := l.dropWhile Char.isDigit
  if run.isEmpty || run.length > 3 then none
  else
    let p := repsConsume rest
    match p.2 with
    | ',' :: d1 :: d2 :: rest2 =>
      if d1.isDigit && d2.isDigit then some (run ++ p.1 ++ ',' :: d1 :: [d2], rest2) else none
    | _ => none

/-- `re.findall` for `(\d{1,3}(?:\.\d{3})*,\d{2})` (fuelled structural
recursion, fuel = input length). -/
def findallFullAux : Nat → List Char → List (List Char)
  | 0, _ => []
  | _, [] => []
  | fuel+1, c :: t =>
    match tryFullMatch (c :: t) with
    | some p => p.1 :: findallFullAux fuel p.2
    | none => findallFullAux fuel t

/-- `re.findall` for `(\d{1,3}(?:\.\d{3})*,\d{2})` on a character list. -/
def findallFull (l : List Char) : List (List Char) :=
  findallFullAux l.length l

/-- One attempt of `\d{1,3}(?:\.\d{3})*` at the head of the input: up to
three digits (greedy, cut short by the end of the digit run), then
greedy dotted three-digit groups (only possible when the initial run was
at most three digits long). -/
def tryNoDecMatch (l : List Char) : Option (List Char × List Char) :=
  let run := l.takeWhile Char.isDigit
  let rest := l.dropWhile Char.isDigit
  if run.isEmpty then none
  else if run.length > 3 then some (run.take 3, l.drop 3)
  else
    let p := repsConsume rest
    some (run ++ p.1, p.2)

/-- `re.findall` for `(\d{1,3}(?:\.\d{3})*)` (fuelled structural
recursion, fuel = input length). -/
def findallNoDecAux : Nat → List Char → List (List Char)
  | 0, _ => []
  | _, [] => []
  | fuel+1, c :: t =>
    match tryNoDecMatch (c :: t) with
    | some p => p.1 :: findallNoDecAux fuel p.2
    | none => findallNoDecAux fuel t

/-- `re.findall` for `(\d{1,3}(?:\.\d{3})*)` on a character list. -/
def findallNoDec (l : List Char) : List (List Char) :=
  findallNoDecAux l.length l

/-- `re.findall` for `(\d{4,})`: the maximal digit runs of length at
least four (shorter runs never satisfy the quantifier at any starting
offset). -/
def findallRuns4 (l : List Char) : List (List Char) :=
  (digitRuns l).filter (fun r => 4 ≤ r.length)

/-- The regex `^\s*\[\d+\]\s*$` applied to an already-stripped line:
an opening bracket, a nonempty digit run, a closing bracket. -/
def isHeaderFlagList (l : List Char) : Bool :=
  match l with
  | '[' :: t =>
    let run := t.takeWhile Char.isDigit
    !run.isEmpty && t.dropWhile Char.isDigit = [']']
  | _ => false

/-- A raw table cell as delivered by the layout engine: absent or text. -/
abbrev Cell := Option String

/-- A raw table row. -/
abbrev RawRow := List Cell

/-- A raw table: a grid of optional text cells. -/
abbrev RawTable := List RawRow

/-- A page as this system sees it: the raw tables the layout engine
extracted (`page.extract_tables()`, computed once per page and cached)
and the page text (`page.extract_text()`, `none` when unavailable). -/
structure Page where
  tables : List RawTable
  text : Option String
deriving DecidableEq

/-- `cell in hay` for a single character. -/
def pyContainsChar (s : String) (c : Char) : Bool := s.toList.contains c

/-- Digit character for a value below ten. -/
def digitChar (n : Nat) : Char := Char.ofNat (48 + n % 10)

/-- Two-digit zero-padded rendering (`%m`, `%d`). -/
def pad2 (n : Nat) : List Char := [digitChar (n / 10 % 10), digitChar (n % 10)]

/-- Four-digit zero-padded rendering (`%Y`). -/
def pad4 (n : Nat) : List Char :=
  [digitChar (n / 1000 % 10), digitChar (n / 100 % 10), digitChar (n / 10 % 10), digitChar (n % 10)]

/-- Gregorian leap-year test, as `datetime` validates it. -/
def isLeapYear (y : Nat) : Bool := y % 4 = 0 && (y % 100 ≠ 0 || y % 400 = 0)

/-- Days in a month, as `datetime` validates it. -/
def daysInMonth (y m : Nat) : Nat :=
  if m = 2 then (if isLeapYear y then 29 else 28)
  else if m = 4 || m = 6 || m = 9 || m = 11 then 30 else 31

/-- `datetime(year, month, day)` succeeds: the components form a real
calendar date (year at least `MINYEAR = 1`; four-digit years never
exceed `MAXYEAR = 9999`). -/
def validDate (y m d : Nat) : Bool :=
  1 ≤ y && 1 ≤ m && m ≤ 12 && 1 ≤ d && d ≤ daysInMonth y m

/-- `\d{1,2}` immediately followed by the separator (greedy with
backtracking: two digits are preferred, one digit is accepted when the
second character is already the separator). Returns the value and the
input after the separator. -/
def parseD12Sep (sep : Char) : List Char → Option (Nat × List Char)
  | a :: b :: c :: rest =>
    if a.isDigit && b.isDigit && c = sep then some ((a.toNat - 48) * 10 + (b.toNat - 48), rest)
    else if a.isDigit && b = sep then some (a.toNat - 48, c :: rest)
    else none
  | a :: b :: rest =>
    if a.isDigit && b = sep then some (a.toNat - 48, rest) else none
  | _ => none

/-- `\d{1,2}` at the end of the pattern (greedy, nothing follows): two
digits when available, else one. -/
def parseD12End : List Char → Option Nat
  | a :: b :: _ =>
    if a.isDigit && b.isDigit then some ((a.toNat - 48) * 10 + (b.toNat - 48))
    else if a.isDigit then some (a.toNat - 48) else none
  | a :: _ => if a.isDigit then some (a.toNat - 48) else none
  | _ => none

/-- `re.match` for `(\d{1,2})sep(\d{1,2})sep(\d{4})` (anchored at the
start, trailing input ignored): day, month, year. -/
def parseDDMMYYYY (sep : Char) (l : List Char) : Option (Nat × Nat × Nat) :=
  match parseD12Sep sep l with
  | none => none
  | some (d, r1) =>
    match parseD12Sep sep r1 with
    | none => none
    | some (m, r2) =>
      match r2 with
      | y1 :: y2 :: y3 :: y4 :: _ =>
        if y1.isDigit && y2.isDigit && y3.isDigit && y4.isDigit then
          some (d, m, digitsToNat [y1, y2, y3, y4])
        else none
      | _ => none

/-- `re.match` for `(\d{4})-(\d{1,2})-(\d{1,2})`: year, month, day. -/
def parseYYYYMMDD (l : List Char) : Option (Nat × Nat × Nat) :=
  match l with
  | y1 :: y2 :: y3 :: y4 :: '-' :: r1 =>
    if y1.isDigit && y2.isDigit && y3.isDigit && y4.isDigit then
      match parseD12Sep '-' r1 with
      | none => none
      | some (m, r2) =>
        match parseD12End r2 with
        | none => none
        | some d => some (digitsToNat [y1, y2, y3, y4], m, d)
    else none
  | _ => none

/-- `date_obj.strftime("%Y-%m-%d")`. -/
def fmtDate (y m d : Nat) : String := ⟨pad4 y ++ '-' :: (pad2 m ++ '-' :: pad2 d)⟩

/-- `ColpensionesPDFExtractor.normalize_date`: try `DD/MM/YYYY`,
`DD-MM-YYYY`, `YYYY-MM-DD` in order on the stripped input; the first
pattern whose components form a valid calendar date wins (`ValueError`
falls through to the next pattern); else null. -/
def normalizeDate (c : Cell) : Option String :=
  match c with
  | none => none
  | some s =>
    if s = "" || pyStrip s = "" || pyStrip s = "--" || pyStrip s = "N/A" then none
    else
      let t := (pyStrip s).toList
      let try1 :=
        match parseDDMMYYYY '/' t with
        | some (d, m, y) => if validDate y m d then some (fmtDate y m d) else none
        | none => none
      match try1 with
      | some r => some r
      | none =>
        let try2 :=
          match parseDDMMYYYY '-' t with
          | some (d, m, y) => if validDate y m d then some (fmtDate y m d) else none
          | none => none
        match try2 with
        | some r => some r
        | none =>
          match parseYYYYMMDD t with
          | some (y, m, d) => if validDate y m d then some (fmtDate y m d) else none
          | none => none

/-- `re.sub(r'[$,\s]', '', s)`: delete dollar signs, commas and
whitespace. -/
def subCurrency (l : List Char) : List Char :=
  l.filter (fun c => !(c = '$' || c = ',' || pyIsSpace c))

/-- `ColpensionesPDFExtractor.clean_salary`: strip currency symbols,
commas and whitespace, then disambiguate the remaining separators and
parse, rounding to two places.  (The initial substitution also deletes
any decimal comma, so the two comma branches below can never fire.) -/
def cleanSalary (c : Cell) : Option Dec :=
  match c with
  | none => none
  | some s =>
    if s = "" || pyStrip s = "" || pyStrip s = "--" || pyStrip s = "N/A" || pyStrip s = "0" then
      none
    else
      let cleaned : List Char := subCurrency (pyStrip s).toList
      let cleaned2 : List Char :=
        if cleaned.contains ',' && cleaned.contains '.' then
          match splitOnCharList ',' cleaned with
          | [p0, p1] => (p0.filter (fun ch => !(ch = '.'))) ++ '.' :: p1
          | _ => cleaned
        else if cleaned.contains ',' then
          match splitOnCharList ',' cleaned with
          | [p0, p1] =>
            if p1.length ≤ 2 then p0 ++ '.' :: p1 else cleaned.filter (fun ch => !(ch = ','))
          | _ => cleaned.filter (fun ch => !(ch = ','))
        else if cleaned.contains '.' then
          match splitOnCharList '.' cleaned with
          | [_, p1] =>
            if p1.length ≤ 2 then cleaned else cleaned.filter (fun ch => !(ch = '.'))
          | _ => cleaned.filter (fun ch => !(ch = '.'))
        else cleaned
      match pyFloat ⟨cleaned2⟩ with
      | some d => some (pyRound2 d)
      | none => none

/-- `ColpensionesPDFExtractor.clean_numeric_colombian`: Colombian
separator disambiguation for generic numeric fields (three-digit
decimal threshold for a lone comma, thousands join for a lone dot with
more than three trailing digits). -/
def cleanNumericColombian (c : Cell) : Option Dec :=
  match c with
  | none => none
  | some s =>
    if s = "" || pyStrip s = "" || pyStrip s = "--" || pyStrip s = "N/A" || pyStrip s = "0" then
      none
    else
      let cleaned : List Char := ((pyStrip s).toList).filter (fun ch => !(ch = ' '))
      let cleaned2 : List Char :=
        if cleaned.contains ',' && cleaned.contains '.' then
          match splitOnCharList ',' cleaned with
          | [p0, p1] => (p0.filter (fun ch => !(ch = '.'))) ++ '.' :: p1
          | _ => cleaned
        else if cleaned.contains ',' then
          match splitOnCharList ',' cleaned with
          | [p0, p1] =>
            if p1.length ≤ 3 then p0 ++ '.' :: p1 else cleaned.filter (fun ch => !(ch = ','))
          | _ => cleaned.filter (fun ch => !(ch = ','))
        else if cleaned.contains '.' then
          match splitOnCharList '.' cleaned with
          | [p0, p1] => if p1.length > 3 then p0 ++ p1 else cleaned
          | _ => cleaned
        else cleaned
      pyFloat ⟨cleaned2⟩

/-- `ColpensionesPDFExtractor.clean_numeric` delegates to the Colombian
cleaner. -/
def cleanNumeric (c : Cell) : Option Dec := cleanNumericColombian c

/-- The expected weeks-schema column headers (`expected_headers` of
`ColpensionesPDFExtractor`). -/
def weeksExpectedHeaders : List String :=
  ["Identificación aportante", "Nombre o razón Social", "Desde", "Hasta",
   "Último salario", "Semanas", "Licencias (Lic.)", "Simultáneos (Sim.)", "Total"]

/-- `cell.strip() if cell else ''` for one cell. -/
def cellText (c : Cell) : String :=
  match c with
  | some s => if s = "" then "" else pyStrip s
  | none => ""

/-- `[cell.strip() if cell else '' for cell in table[0]]`. -/
def headerCells (row : RawRow) : List String :=
  row.map cellText

/-- Symmetric case-insensitive partial containment between an expected
label and an actual header cell. -/
def headerMatchB (expected header : String) : Bool :=
  pyContains (pyLower header) (pyLower expected) || pyContains (pyLower expected) (pyLower header)

/-- Inner accumulation of `_count_header_matches`: one point per
expected label for which some actual cell matches (the `break` makes an
inner loop an existence test). -/
def countHeaderMatchesAux (headers : List String) : List String → Nat
  | [] => 0
  | e :: es =>
    (if headers.any (fun h => headerMatchB e h) then 1 else 0) + countHeaderMatchesAux headers es

/-- `ColpensionesPDFExtractor._count_header_matches`. -/
def countHeaderMatches (headers : List String) : Nat :=
  countHeaderMatchesAux headers weeksExpectedHeaders

/-- The per-table acceptance condition of `find_table_with_headers` /
`_has_table_headers_cached` / `check_for_table_end`: at least two rows,
exactly nine first-row cells, at least six matched expected headers. -/
def weeksAccept (t : RawTable) : Bool :=
  match t with
  | row0 :: _ :: _ =>
    let headers := headerCells row0
    if headers.length = 9 then decide (6 ≤ countHeaderMatches headers) else false
  | _ => false

/-- `ColpensionesPDFExtractor.find_table_with_headers`: the first table
on the page passing the acceptance condition, skipping the rest. -/
def findTableWithHeaders : List RawTable → Option RawTable
  | [] => none
  | t :: ts => if weeksAccept t then some t else findTableWithHeaders ts

/-- `ColpensionesPDFExtractor._has_table_headers_cached`: some cached
table passes the acceptance condition. -/
def hasHeadersCached (tables : List RawTable) : Bool :=
  tables.any weeksAccept

/-- The end-of-table text indicators of `check_for_table_end`. -/
def endIndicators : List String :=
  ["total semanas cotizadas", "total de semanas cotizadas", "total semanas",
   "resumen de semanas", "total general"]

/-- `ColpensionesPDFExtractor.check_for_table_end` on cached tables: a
page with any valid table never ends the run; otherwise the lowered page
text is scanned for an end indicator. -/
def checkForTableEnd (tables : List RawTable) (text : Option String) : Bool :=
  if hasHeadersCached tables then false
  else
    match text with
    | none => false
    | some txt =>
      if txt = "" then false
      else endIndicators.any (fun ind => pyContains (pyLower txt) ind)

/-- One pattern round of `extract_summary_numeric`: take the last match,
skip one-or-two-digit pure numbers (header flags), convert the comma to
a decimal point, reject magnitudes below `0.01`.  A `none` moves on to
the next pattern. -/
def esnTry (ms : List (List Char)) : Option Dec :=
  match ms.getLast? with
  | none => none
  | some vs =>
    if decide (vs.length ≤ 2) && vs.all Char.isDigit then none
    else
      let sv : List Char := if vs.contains ',' then vs.map (fun ch => if ch = ',' then '.' else ch) else vs
      match pyFloat ⟨sv⟩ with
      | none => none
      | some d => if Dec.blt d ⟨1, 2⟩ then none else some d

/-- `ColpensionesPDFExtractor.extract_summary_numeric`: skip pure header
flags, then try the `(\d+,\d{2})` pattern and the `(\d+)` pattern in
order. -/
def extractSummaryNumeric (line : String) : Option Dec :=
  if isHeaderFlagList (pyStripList line.toList) then none
  else
    match esnTry (findallComma 1 line.toList) with
    | some d => some d
    | none =>
      match esnTry (digitRuns line.toList) with
      | some d => some d
      | none => none

/-- The Colombian conversion step of `extract_numeric_from_line` applied
to one matched string. -/
def enlConvert (vs : List Char) : List Char :=
  if vs.contains ',' && vs.contains '.' then
    match splitOnCharList ',' vs with
    | p0 :: p1 :: _ => (p0.filter (fun ch => !(ch = '.'))) ++ '.' :: p1
    | _ => vs
  else if vs.contains ',' then
    match splitOnCharList ',' vs with
    | [_, p1] =>
      if p1.length ≤ 2 then vs.map (fun ch => if ch = ',' then '.' else ch)
      else vs.filter (fun ch => !(ch = ','))
    | _ => vs.filter (fun ch => !(ch = ','))
  else if vs.contains '.' then
    match splitOnCharList '.' vs with
    | [_, p1] => if p1.length ≤ 2 then vs else vs.filter (fun ch => !(ch = '.'))
    | _ => vs.filter (fun ch => !(ch = '.'))
  else vs

/-- One pattern round of `extract_numeric_from_line`. -/
def enlTry (ms : List (List Char)) : Option Dec :=
  match ms.getLast? with
  | none => none
  | some vs =>
    if decide (vs.length ≤ 2) && vs.all Char.isDigit then none
    else
      match pyFloat ⟨enlConvert vs⟩ with
      | none => none
      | some d => if Dec.blt d ⟨1, 2⟩ then none else some d

/-- `ColpensionesPDFExtractor.extract_numeric_from_line`: skip pure
header flags, then try the six Colombian-number patterns in order. -/
def extractNumericFromLine (line : String) : Option Dec :=
  if isHeaderFlagList (pyStripList line.toList) then none
  else
    match enlTry (findallFull line.toList) with
    | some d => some d
    | none =>
      match enlTry (findallComma 4 line.toList) with
      | some d => some d
      | none =>
        match enlTry (findallComma 1 line.toList) with
        | some d => some d
        | none =>
          match enlTry (findallNoDec line.toList) with
          | some d => some d
          | none =>
            match enlTry (findallRuns4 line.toList) with
            | some d => some d
            | none =>
              match enlTry (digitRuns line.toList) with
              | some d => some d
              | none => none

/-- The two summary fields (`weeks_total_report`, `weeks_high_risk`). -/
structure Summary where
  total : Option Dec
  highRisk : Option Dec
deriving DecidableEq

/-- Python truthiness of an optional float value (`not x`): absent or
zero (stored values are normalized, so zero is `⟨0, 0⟩`). -/
def pyFalsyFloat (o : Option Dec) : Bool :=
  match o with
  | none => true
  | some d => d = ⟨0, 0⟩

/-- The bounded lookahead of `extract_summary_values`: walk the window
of following lines, skip blank ones, accept the first extracted value
passing `cond`, keep looking otherwise. -/
def summaryLookahead (cond : Dec → Bool) (extractFn : String → Option Dec) :
    List String → Option Dec
  | [] => none
  | lraw :: t =>
    let next := pyStrip lraw
    if next = "" then summaryLookahead cond extractFn t
    else
      match extractFn next with
      | some v => if cond v then some v else summaryLookahead cond extractFn t
      | none => summaryLookahead cond extractFn t

/-- The `[26]` lookahead condition: not the flag value itself and above
one hundred. -/
def cond26 (v : Dec) : Bool := !(v = Dec.ofNat 26) && Dec.blt (Dec.ofNat 100) v

/-- The `[11]` lookahead condition: not the flag value itself. -/
def cond11 (v : Dec) : Bool := !(v = Dec.ofNat 11)

/-- One iteration of the line loop of `extract_summary_values`: `lraw`
is the current raw line, `rest` the lines after it (the source indexes
into the full line list; the window `rest.take k` is exactly
`lines[i+1 : min(i+1+k, len(lines))]`). -/
def esvStep (sv : Summary) (lraw : String) (rest : List String) : Summary :=
  let line := pyStrip lraw
  if pyContains line "[26]" && pyContains (pyLower line) "total semanas" then
    let fallback : Summary :=
      match summaryLookahead cond26 extractSummaryNumeric (rest.take 4) with
      | some v => { sv with total := some v }
      | none => sv
    match extractSummaryNumeric line with
    | some v => if v = Dec.ofNat 26 then fallback else { sv with total := some v }
    | none => fallback
  else if pyContains (pyLower line) "total semanas" && pyFalsyFloat sv.total then
    match extractSummaryNumeric line with
    | some v => if Dec.blt (Dec.ofNat 100) v then { sv with total := some v } else sv
    | none => sv
  else if pyContains line "[11]" &&
      pyContains (pyLower line) "semanas cotizadas con tarifa de alto riesgo" then
    let fallback : Summary :=
      match summaryLookahead cond11 extractNumericFromLine (rest.take 2) with
      | some v => { sv with highRisk := some v }
      | none => sv
    match extractNumericFromLine line with
    | some v => if v = Dec.ofNat 11 then fallback else { sv with highRisk := some v }
    | none => fallback
  else sv

/-- The line loop of `extract_summary_values`. -/
def esvLoop (sv : Summary) : List String → Summary
  | [] => sv
  | lraw :: rest => esvLoop (esvStep sv lraw rest) rest

/-- `ColpensionesPDFExtractor.extract_summary_values` over a page text
(`none` and the empty text yield the empty summary, matching
`if not text`). -/
def extractSummaryValues (text : Option String) : Summary :=
  match text with
  | none => ⟨none, none⟩
  | some txt =>
    if txt = "" then ⟨none, none⟩
    else esvLoop ⟨none, none⟩ (pySplit txt '\n')

/-- The total/summary indicators of the weeks `is_data_row`. -/
def totalIndicators : List String := ["total", "suma", "resumen", "subtotal", "gran total"]

/-- The repeated-header indicators of the weeks `is_data_row`. -/
def weeksHeaderIndicators : List String :=
  ["[1] identificación", "identificación aportante", "identificacion aportante",
   "identificación", "identificacion"]

/-- Python `str.isalnum()` restricted to ASCII letters and digits (the
non-ASCII letters of this corpus only reach branches whose outcome does
not depend on it: both sides of the test return true). -/
def pyIsAlnum (l : List Char) : Bool :=
  !l.isEmpty && l.all (fun c => c.isAlpha || c.isDigit)

/-- First cell of a row as `is_data_row` reads it:
`str(row[0]).strip() if row[0] else ''`. -/
def firstCellText (row : RawRow) : String :=
  match row.headD none with
  | some s => if s = "" then "" else pyStrip s
  | none => ""

/-- `ColpensionesPDFExtractor.is_data_row`: reject short rows,
total/summary rows, repeated header rows, empty and one-character first
cells; accept everything else (the final identifier-shape checks all
return true). -/
def weeksIsDataRow (row : RawRow) : Bool :=
  if row.length < 3 then false
  else
    let firstCell := firstCellText row
    let fl := pyLower firstCell
    if totalIndicators.any (fun ind => pyContains fl ind) then false
    else if weeksHeaderIndicators.any (fun ind => pyContains fl ind) then false
    else if firstCell = "" then false
    else if firstCell.toList.length < 2 then false
    else if pyIsDigitStr firstCell && decide (6 ≤ firstCell.toList.length) then true
    else if pyIsAlnum
        (((firstCell.toList.filter (fun ch => !(ch = ' '))).filter
          (fun ch => !(ch = '-'))).filter (fun ch => !(ch = '.'))) then true
    else true

/-- One contribution-weeks record (`output_columns` of the weeks
extractor). -/
structure WeeksRecord where
  cont_id : Option String
  cont_name : Option String
  cont_from : Option String
  cont_to : Option String
  cont_last_salary : Option Dec
  cont_weeks : Option Dec
  cont_deduction_weeks : Option Dec
  sim_weeks : Option Dec
  net_weeks : Option Dec
deriving DecidableEq

/-- `row[i].strip() if row[i] else None` for the identifier and name
columns. -/
def stripCellOrNone (c : Cell) : Option String :=
  match c with
  | some s => if s = "" then none else some (pyStrip s)
  | none => none

/-- `ColpensionesPDFExtractor.clean_row_data`: reject rows without
exactly nine cells, otherwise map each cell positionally through its
type-specific cleaner (the built record is a nonempty dict, hence always
truthy for the caller). -/
def weeksCleanRowData (row : RawRow) : Option WeeksRecord :=
  if row.length ≠ 9 then none
  else some
    { cont_id := stripCellOrNone (row.getD 0 none)
      cont_name := stripCellOrNone (row.getD 1 none)
      cont_from := normalizeDate (row.getD 2 none)
      cont_to := normalizeDate (row.getD 3 none)
      cont_last_salary := cleanSalary (row.getD 4 none)
      cont_weeks := cleanNumeric (row.getD 5 none)
      cont_deduction_weeks := cleanNumeric (row.getD 6 none)
      sim_weeks := cleanNumeric (row.getD 7 none)
      net_weeks := cleanNumeric (row.getD 8 none) }

/-- Python truthiness of `any(cell for cell in row)`: some cell is
present and nonempty. -/
def rowTruthy (row : RawRow) : Bool :=
  row.any (fun c => match c with | some s => !(s = "") | none => false)

/-- The extraction state of `extract_table_and_summary_from_pdf`:
accumulated records, summary aggregate, whether a table was ever found,
and whether the header row has already been consumed. -/
structure WeeksState where
  rows : List WeeksRecord
  summary : Summary
  tableFound : Bool
  headersProcessed : Bool
deriving DecidableEq

/-- Merge one page's mined summary into the aggregate: a successfully
parsed value overwrites, a null leaves the previous value. -/
def updateSummary (sv ps : Summary) : Summary :=
  ⟨match ps.total with | some v => some v | none => sv.total,
   match ps.highRisk with | some v => some v | none => sv.highRisk⟩

/-- The inner row loop body: skip rows with no truthy cell, classify,
clean, and append a non-null record. -/
def weeksRowStep (acc : List WeeksRecord) (row : RawRow) : List WeeksRecord :=
  if rowTruthy row then
    if weeksIsDataRow row then
      match weeksCleanRowData row with
      | some r => acc ++ [r]
      | none => acc
    else acc
  else acc

/-- The row loop over `table[start_row:]`. -/
def weeksRowLoop (acc : List WeeksRecord) : List RawRow → List WeeksRecord
  | [] => acc
  | r :: rest => weeksRowLoop (weeksRowStep acc r) rest

/-- Processing of one accepted table (the body under `matches >= 6`):
skip the first row only while the header has not been consumed, run the
row loop, mine the page summary, and flip both flags. -/
def processAccepted (st : WeeksState) (text : Option String) (t : RawTable) : WeeksState :=
  let startRows := if st.headersProcessed then t else t.drop 1
  { rows := weeksRowLoop st.rows startRows
    summary := updateSummary st.summary (extractSummaryValues text)
    tableFound := true
    headersProcessed := true }

/-- The per-page table loop: the first accepted table is processed and
the loop breaks; non-matching tables are skipped. -/
def processTables (st : WeeksState) (text : Option String) : List RawTable → WeeksState
  | [] => st
  | t :: ts => if weeksAccept t then processAccepted st text t else processTables st text ts

/-- One iteration of the page loop of
`extract_table_and_summary_from_pdf`.  Returns the new state and whether
the loop breaks after this page: a page without a valid table is mined
for summary values and ends the run only when a table was already found;
a page whose cached tables trigger `check_for_table_end` is mined and
ends the run (unreachable: a page in this branch has a valid table, so
`check_for_table_end` returns false); otherwise the tables are
processed. -/
def processPage (st : WeeksState) (p : Page) : WeeksState × Bool :=
  if !hasHeadersCached p.tables then
    ({ st with summary := updateSummary st.summary (extractSummaryValues p.text) },
     st.tableFound)
  else if checkForTableEnd p.tables p.text then
    ({ st with summary := updateSummary st.summary (extractSummaryValues p.text) }, true)
  else
    (processTables st p.text p.tables, false)

/-- The page loop of `extract_table_and_summary_from_pdf`. -/
def processPages (st : WeeksState) : List Page → WeeksState
  | [] => st
  | p :: ps =>
    let r := processPage st p
    if r.2 then r.1 else processPages r.1 ps

/-- The initial extraction state. -/
def initWeeksState : WeeksState := ⟨[], ⟨none, none⟩, false, false⟩

/-- `ColpensionesPDFExtractor.extract_table_and_summary_from_pdf`,
abstracted over the pages the layout engine yields: the final record
list and summary aggregate. -/
def extractTableAndSummary (pages : List Page) : WeeksState :=
  processPages initWeeksState pages

/-- Python truthiness of an optional integer (`not x`): absent or zero. -/
def pyFalsyInt (o : Option Int) : Bool :=
  match o with
  | none => true
  | some k => k = 0

/-- Python truthiness of an optional string (`if cleaned_data[...]`):
present and nonempty. -/
def pyTruthyOptStr (o : Option String) : Bool :=
  match o with
  | some s => !(s = "")
  | none => false

/-- `ColpensionesPost1995PaymentsExtractor.normalize_period`: the
pre-compiled pattern `(\d{4})(\d{2})` is applied with `re.match`, so it
anchors at the start only — the first six characters of the stripped
input must be digits, trailing input is ignored; the month pair must lie
in `1..12`. -/
def payNormalizePeriod (c : Cell) : Option String :=
  match c with
  | none => none
  | some s =>
    if s = "" || pyStrip s = "" || pyStrip s = "--" || pyStrip s = "N/A" then none
    else
      match (pyStrip s).toList with
      | a :: b :: c3 :: d :: e :: f :: _ =>
        if a.isDigit && b.isDigit && c3.isDigit && d.isDigit && e.isDigit && f.isDigit then
          let mo := (e.toNat - 48) * 10 + (f.toNat - 48)
          if 1 ≤ mo ∧ mo ≤ 12 then some ⟨[a, b, c3, d] ++ '-' :: [e, f]⟩ else none
        else none
      | _ => none

/-- `ColpensionesPost1995PaymentsExtractor.clean_ibc_value`: strip
currency symbols, commas and whitespace, delete every dot as a thousands
separator, parse and round to two places. -/
def cleanIbcValue (c : Cell) : Option Dec :=
  match c with
  | none => none
  | some s =>
    if s = "" || pyStrip s = "" || pyStrip s = "--" || pyStrip s = "N/A" || pyStrip s = "0" then
      none
    else
      let cleaned : List Char := subCurrency (pyStrip s).toList
      let cleaned2 : List Char :=
        if cleaned.contains '.' then cleaned.filter (fun ch => !(ch = '.')) else cleaned
      match pyFloat ⟨cleaned2⟩ with
      | some d => some (pyRound2 d)
      | none => none

/-- `ColpensionesPost1995PaymentsExtractor.clean_days_value`:
`int(str(days_str).strip())`, with the usual null markers (and the
literal `0`) mapped to null. -/
def cleanDaysValue (c : Cell) : Option Int :=
  match c with
  | none => none
  | some s =>
    if s = "" || pyStrip s = "" || pyStrip s = "--" || pyStrip s = "N/A" || pyStrip s = "0" then
      none
    else pyInt (pyStrip s)

/-- One post-1995 payment record (`output_columns` of the payments
extractor). -/
structure PayRecord where
  cont_id : Option String
  cont_name : Option String
  cont_period : Option String
  cont_reported_ibc : Option Dec
  cont_reported_days : Option Int
  cont_contributed_days : Option Int
deriving DecidableEq

/-- The period content-sniffing fallback of the payments
`clean_row_data`: the first cell that strips to six digits is fed to the
period normalizer and the scan stops, whatever the outcome. -/
def periodSniff : RawRow → Option String
  | [] => none
  | c :: t =>
    match c with
    | some s =>
      if !(s = "") && !(pyStrip s = "") then
        let cs := pyStrip s
        if cs.toList.length = 6 && pyIsDigitStr cs then payNormalizePeriod (some cs)
        else periodSniff t
      else periodSniff t
    | none => periodSniff t

/-- The income-base content-sniffing fallback: the first cell containing
a dollar sign or both separators is fed to the IBC cleaner and the scan
stops (`none` means no cell qualified, so the field keeps its previous
value). -/
def ibcSniff : RawRow → Option (Option Dec)
  | [] => none
  | c :: t =>
    match c with
    | some s =>
      if !(s = "") && !(pyStrip s = "") then
        let cs := pyStrip s
        if pyContainsChar cs '$' || (pyContainsChar cs '.' && pyContainsChar cs ',') then
          some (cleanIbcValue (some cs))
        else ibcSniff t
      else ibcSniff t
    | none => ibcSniff t

/-- The days content-sniffing fallback: up to two cells holding a bare
integer in `[1, 31]` overwrite, in encounter order, the reported-days
then the contributed-days slots of the accumulator. -/
def daysSniffAux : RawRow → Nat → Option Int × Option Int → Option Int × Option Int
  | [], _, acc => acc
  | c :: t, found, acc =>
    match c with
    | some s =>
      if !(s = "") && !(pyStrip s = "") then
        let cs := pyStrip s
        if pyIsDigitStr cs && 1 ≤ digitsToNat cs.toList && digitsToNat cs.toList ≤ 31 then
          if found = 0 then daysSniffAux t 1 (cleanDaysValue (some cs), acc.2)
          else (acc.1, cleanDaysValue (some cs))
        else daysSniffAux t found acc
      else daysSniffAux t found acc
    | none => daysSniffAux t found acc

/-- The record-building phase of the payments `clean_row_data`:
positional 13-column mapping first, then the content-sniffing fallbacks
for any field still falsy. -/
def payBuildRecord (row : RawRow) : PayRecord :=
  let base : PayRecord :=
      { cont_id := stripCellOrNone (row.getD 0 none)
        cont_name := stripCellOrNone (row.getD 1 none)
        cont_period := none
        cont_reported_ibc := none
        cont_reported_days := none
        cont_contributed_days := none }
    let r1 : PayRecord :=
      if 13 ≤ row.length then
        { base with
          cont_period := payNormalizePeriod (row.getD 3 none)
          cont_reported_ibc := cleanIbcValue (row.getD 6 none)
          cont_reported_days := cleanDaysValue (row.getD 10 none)
          cont_contributed_days := cleanDaysValue (row.getD 11 none) }
      else base
    let r2 : PayRecord :=
      if r1.cont_period.isNone then { r1 with cont_period := periodSniff row } else r1
    let r3 : PayRecord :=
      if pyFalsyFloat r2.cont_reported_ibc then
        match ibcSniff row with
        | some res => { r2 with cont_reported_ibc := res }
        | none => r2
      else r2
    if pyFalsyInt r3.cont_reported_days || pyFalsyInt r3.cont_contributed_days then
      let p := daysSniffAux row 0 (r3.cont_reported_days, r3.cont_contributed_days)
      { r3 with cont_reported_days := p.1, cont_contributed_days := p.2 }
    else r3

/-- `ColpensionesPost1995PaymentsExtractor.clean_row_data`: reject rows
shorter than three cells, build the record, and emit it only when
identifier and name are both non-empty. -/
def payCleanRowData (row : RawRow) : Option PayRecord :=
  if row.length < 3 then none
  else
    let r4 := payBuildRecord row
    if pyTruthyOptStr r4.cont_id && pyTruthyOptStr r4.cont_name then some r4 else none

/-- Strict parse of a canonical `YYYY-MM` period into a month index
(`year * 12 + month - 1`), as `pd.to_datetime(..., format="%Y-%m")`
accepts it; anything else raises, modelled by `none`. -/
def parseDashPeriod (s : String) : Option Nat :=
  match s.toList with
  | [y1, y2, y3, y4, '-', m1, m2] =>
    if y1.isDigit && y2.isDigit && y3.isDigit && y4.isDigit && m1.isDigit && m2.isDigit then
      let mo := (m1.toNat - 48) * 10 + (m2.toNat - 48)
      if 1 ≤ mo ∧ mo ≤ 12 then some (digitsToNat [y1, y2, y3, y4] * 12 + (mo - 1)) else none
    else none
  | _ => none

/-- Strict parse of a six-digit `YYYYMM` period into a month index, as
`pd.to_datetime(..., format="%Y%m")` accepts it. -/
def parseCompactPeriod (s : String) : Option Nat :=
  match s.toList with
  | [y1, y2, y3, y4, m1, m2] =>
    if y1.isDigit && y2.isDigit && y3.isDigit && y4.isDigit && m1.isDigit && m2.isDigit then
      let mo := (m1.toNat - 48) * 10 + (m2.toNat - 48)
      if 1 ≤ mo ∧ mo ≤ 12 then some (digitsToNat [y1, y2, y3, y4] * 12 + (mo - 1)) else none
    else none
  | _ => none

/-- `strftime("%Y-%m")` of a month index. -/
def fmtPeriod (idx : Nat) : String := ⟨pad4 (idx / 12) ++ '-' :: pad2 (idx % 12 + 1)⟩

/-- The gap report returned by `get_missing_periods_json`. -/
structure GapReport where
  missing : List String
  startPeriod : String
  endPeriod : String
  nMissing : Nat
deriving DecidableEq

/-- Sequential parse of every period: the first failure raises
(`none`), as `pd.to_datetime` does on the whole column. -/
def parseAll (f : String → Option Nat) : List String → Option (List Nat)
  | [] => some []
  | s :: t =>
    match f s with
    | none => none
    | some v =>
      match parseAll f t with
      | none => none
      | some vs => some (v :: vs)

/-- The format dispatch of `get_missing_periods_json` applied to the
whole column. -/
def parsePeriods (periods : List String) : Option (List Nat) :=
  let dash := periods.any (fun s => pyContains s "-")
  parseAll (fun s => if dash then parseDashPeriod s else parseCompactPeriod s) periods

/-- `ColpensionesPost1995PaymentsExtractor.get_missing_periods_json`:
parse the period column, take the first and last of the sorted values
(their minimum and maximum), enumerate every month start between them
inclusive, and report the enumerated months absent from the column, in
order, with the count.  `none` models the exceptions pandas raises on an
unparseable period or an empty column (`iloc[0]` on no rows). -/
def getMissingPeriodsJson (periods : List String) : Option GapReport :=
  match parsePeriods periods with
  | none => none
  | some [] => none
  | some (m0 :: rest) =>
    let lo := rest.foldl Nat.min m0
    let hi := rest.foldl Nat.max m0
    let monthsBetween := (List.range (hi - lo + 1)).map (lo + ·)
    let missing := monthsBetween.filter (fun k => !(m0 :: rest).contains k)
    some { missing := missing.map fmtPeriod
           startPeriod := fmtPeriod lo
           endPeriod := fmtPeriod hi
           nMissing := missing.length }

/-- Spec-side header acceptance score: the count of expected labels for
which some actual header cell matches by symmetric case-insensitive
containment (at most one point per expected label). -/
def weeksHeaderScore (headers : List String) : Nat :=
  weeksExpectedHeaders.countP (fun e => headers.any (fun h => headerMatchB e h))

/-- Spec-side record extraction from a list of rows: rows with a truthy
cell that classify as data and clean to a record, in order. -/
def weeksEmittedFrom (rows : List RawRow) : List WeeksRecord :=
  rows.filterMap (fun row =>
    if rowTruthy row && weeksIsDataRow row then weeksCleanRowData row else none)

/-- Spec-side description of what one page contributes to the record
list: the first schema-matching table, with its first row dropped
exactly when the header has not been consumed yet. -/
def pageEmitted (st : WeeksState) (p : Page) : List WeeksRecord :=
  match p.tables.find? weeksAccept with
  | some t => weeksEmittedFrom (if st.headersProcessed then t else t.drop 1)
  | none => []

/-- Spec-side aggregation: the last successfully parsed value of a
sequence of per-page extraction results. -/
def lastSuccessful (l : List (Option Dec)) : Option Dec :=
  (l.filterMap id).getLast?

/-- Spec-side description of one lookahead probe for the primary total:
a non-blank line whose extracted value is not the marker tag `26` and
exceeds `100`. -/
def look26Spec (lraw : String) : Option Dec :=
  if pyStrip lraw = "" then none
  else
    match extractSummaryNumeric (pyStrip lraw) with
    | some v => if cond26 v then some v else none
    | none => none

/-- Spec-side period normalizer, following the amended reading of the
source: the stripped input must begin with six digits whose final pair
is a month in `1..12`; trailing characters are ignored. -/
def normalizePeriodSpec (s : String) : Option String :=
  match (pyStrip s).toList with
  | a :: b :: c3 :: d :: e :: f :: _ =>
    if a.isDigit && b.isDigit && c3.isDigit && d.isDigit && e.isDigit && f.isDigit then
      let mo := (e.toNat - 48) * 10 + (f.toNat - 48)
      if 1 ≤ mo ∧ mo ≤ 12 then some ⟨[a, b, c3, d] ++ '-' :: [e, f]⟩ else none
    else none
  | _ => none

/-! ### Concrete sample inputs used by the claim witnesses -/

/-- A thirteen-cell payments row whose positional day columns hold `45`
and `20`. -/
def c2Row : RawRow :=
  [some "1234567", some "PEPE PEREZ", some "", some "199712", some "", some "",
   some "$ 100.000", some "", some "", some "", some "45", some "20", some ""]

/-- The canonical weeks header row. -/
def wHdrRow : RawRow :=
  [some "Identificación aportante", some "Nombre o razón Social", some "Desde", some "Hasta",
   some "Último salario", some "Semanas", some "Licencias (Lic.)", some "Simultáneos (Sim.)",
   some "Total"]

/-- One well-formed weeks data row. -/
def wDataRow : RawRow :=
  [some "890326878", some "EMPRESA SA", some "1/2/1999", some "28/2/1999", some "$ 471.800",
   some "4,29", some "0,00", some "0,00", some "4,29"]

/-- A weeks table: header plus one data row. -/
def wTable : RawTable := [wHdrRow, wDataRow]

/-- The record `wDataRow` cleans to. -/
def wRecord : WeeksRecord :=
  { cont_id := some "890326878", cont_name := some "EMPRESA SA", cont_from := some "1999-02-01",
    cont_to := some "1999-02-28", cont_last_salary := some (Dec.ofNat 471800),
    cont_weeks := some ⟨429, 2⟩, cont_deduction_weeks := some ⟨0, 0⟩,
    sim_weeks := some ⟨0, 0⟩, net_weeks := some ⟨429, 2⟩ }

/-- A page holding both a valid weeks table and end-of-table text. -/
def c6Page : Page := ⟨[wTable], some "TOTAL SEMANAS COTIZADAS"⟩

/-- A summary page whose marker value appears two lines below it. -/
def c8Page1 : Page := ⟨[], some "[26] TOTAL SEMANAS\n\n1193,00"⟩

/-- A later summary page restating the total. -/
def c8Page2 : Page := ⟨[], some "[26] TOTAL SEMANAS\n\n1250,00"⟩

/-- A table whose first row is nine absent cells over one data row. -/
def c10Table : RawTable :=
  [List.replicate 9 none, [some "890326878", some "EMPRESA SA", some "x"]]

/-! ### Supporting lemmas -/

/-- The dropped part of a `span` is no longer than the input. -/
theorem length_dropWhile_le_self (p : Char → Bool) (l : List Char) :
    (l.dropWhile p).length ≤ l.length := by
  calc (l.dropWhile p).length ≤ (l.takeWhile p).length + (l.dropWhile p).length :=
        Nat.le_add_left _ _
  _ = l.length := by rw [← List.length_append, List.takeWhile_append_dropWhile]

/-- A successful comma-pattern attempt consumes at least three characters. -/
theorem tryCommaMatch_shrink (minRun : Nat) (l m rest : List Char)
    (h : tryCommaMatch minRun l = some (m, rest)) : rest.length < l.length := by
  simp only [tryCommaMatch] at h
  split at h
  · exact absurd h (by simp)
  · split at h
    · split at h
      · rename_i heq hdig
        simp only [Option.some.injEq, Prod.mk.injEq] at h
        have h3 := length_dropWhile_le_self Char.isDigit l
        rw [heq] at h3
        simp only [List.length_cons] at h3
        rw [← h.2]
        omega
      · exact absurd h (by simp)
    · exact absurd h (by simp)

/-- The remainder of `repsConsume` is no longer than its input. -/
theorem repsConsume_len (r : List Char) : (repsConsume r).2.length ≤ r.length := by
  induction r using repsConsume.induct with
  | case1 a b c r2 h ih =>
    rw [repsConsume]
    simp only [h, if_true]
    simp only [List.length_cons]
    omega
  | case2 a b c r2 h =>
    rw [repsConsume]
    simp [h]
  | case3 r hr =>
    rw [repsConsume.eq_def]
    split
    · rename_i a b c r2
      exact absurd rfl (hr a b c r2)
    · simp

/-- A successful full-pattern attempt consumes at least four characters. -/
theorem tryFullMatch_shrink (l m rest : List Char)
    (h : tryFullMatch l = some (m, rest)) : rest.length < l.length := by
  simp only [tryFullMatch] at h
  split at h
  · exact absurd h (by simp)
  · rename_i hrun
    split at h
    · split at h
      · rename_i heq hdig
        simp only [Option.some.injEq, Prod.mk.injEq] at h
        have h2 := repsConsume_len (l.dropWhile Char.isDigit)
        rw [heq] at h2
        simp only [List.length_cons] at h2
        rw [← h.2]
        have h3 : (l.takeWhile Char.isDigit).length + (l.dropWhile Char.isDigit).length
            = l.length := by
          rw [← List.length_append, List.takeWhile_append_dropWhile]
        have h4 : ¬(l.takeWhile Char.isDigit).isEmpty = true := by
          intro hc
          simp [hc] at hrun
        have h5 : 1 ≤ (l.takeWhile Char.isDigit).length := by
          cases hl : l.takeWhile Char.isDigit with
          | nil => rw [hl] at h4; simp at h4
          | cons a t => simp [hl]
        omega
      · exact absurd h (by simp)
    · exact absurd h (by simp)

/-- A successful no-decimal attempt consumes at least one character. -/
theorem tryNoDecMatch_shrink (l m rest : List Char)
    (h : tryNoDecMatch l = some (m, rest)) : rest.length < l.length := by
  simp only [tryNoDecMatch] at h
  split at h
  · exact absurd h (by simp)
  · rename_i hrun
    have h4 : 1 ≤ (l.takeWhile Char.isDigit).length := by
      cases hl : l.takeWhile Char.isDigit with
      | nil => rw [hl] at hrun; simp at hrun
      | cons a t => simp [hl]
    split at h
    · rename_i hlong
      simp only [Option.some.injEq, Prod.mk.injEq] at h
      have h5 : (l.takeWhile Char.isDigit).length ≤ l.length := by
        have h3 : (l.takeWhile Char.isDigit).length + (l.dropWhile Char.isDigit).length
            = l.length := by
          rw [← List.length_append, List.takeWhile_append_dropWhile]
        omega
      have h6 : rest.length = l.length - 3 := by
        rw [← h.2]
        simp
      omega
    · simp only [Option.some.injEq, Prod.mk.injEq] at h
      have h2 := repsConsume_len (l.dropWhile Char.isDigit)
      have h3 : (l.takeWhile Char.isDigit).length + (l.dropWhile Char.isDigit).length
          = l.length := by
        rw [← List.length_append, List.takeWhile_append_dropWhile]
      rw [← h.2]
      omega

/-- The fuelled comma scanner is insensitive to the fuel above the input
length, so starting it at the input length realizes the untruncated
scan. -/
theorem findallCommaAux_fuel (minRun : Nat) :
    ∀ (f : Nat) (g : Nat) (l : List Char), l.length ≤ f → l.length ≤ g →
      findallCommaAux minRun f l = findallCommaAux minRun g l := by
  intro f
  induction f with
  | zero =>
    intro g l h1 h2
    have hl : l = [] := List.eq_nil_of_length_eq_zero (Nat.le_zero.mp h1)
    subst hl
    cases g <;> rfl
  | succ f ih =>
    intro g l h1 h2
    cases l with
    | nil => cases g <;> rfl
    | cons c t =>
      cases g with
      | zero => simp at h2
      | succ g2 =>
        simp only [findallCommaAux]
        cases h : tryCommaMatch minRun (c :: t) with
        | some p =>
          obtain ⟨m, r⟩ := p
          have hs := tryCommaMatch_shrink minRun (c :: t) m r h
          simp only [List.length_cons] at hs h1 h2
          simp only []
          rw [ih g2 r (by omega) (by omega)]
        | none =>
          simp only [List.length_cons] at h1 h2
          exact ih g2 t (by omega) (by omega)

/-- The fuelled digit-run scanner is insensitive to the fuel above the
input length. -/
theorem digitRunsAux_fuel :
    ∀ (f : Nat) (g : Nat) (l : List Char), l.length ≤ f → l.length ≤ g →
      digitRunsAux f l = digitRunsAux g l := by
  intro f
  induction f with
  | zero =>
    intro g l h1 h2
    have hl : l = [] := List.eq_nil_of_length_eq_zero (Nat.le_zero.mp h1)
    subst hl
    cases g <;> rfl
  | succ f ih =>
    intro g l h1 h2
    cases l with
    | nil => cases g <;> rfl
    | cons c t =>
      cases g with
      | zero => simp at h2
      | succ g2 =>
        simp only [digitRunsAux]
        have hd := length_dropWhile_le_self Char.isDigit t
        simp only [List.length_cons] at h1 h2
        by_cases hc : c.isDigit
        · simp only [hc, if_true]
          rw [ih g2 (t.dropWhile Char.isDigit) (by omega) (by omega)]
        · simp only [hc, if_false]
          exact ih g2 t (by omega) (by omega)

/-- The fuelled full-pattern scanner is insensitive to the fuel above
the input length. -/
theorem findallFullAux_fuel :
    ∀ (f : Nat) (g : Nat) (l : List Char), l.length ≤ f → l.length ≤ g →
      findallFullAux f l = findallFullAux g l := by
  intro f
  induction f with
  | zero =>
    intro g l h1 h2
    have hl : l = [] := List.eq_nil_of_length_eq_zero (Nat.le_zero.mp h1)
    subst hl
    cases g <;> rfl
  | succ f ih =>
    intro g l h1 h2
    cases l with
    | nil => cases g <;> rfl
    | cons c t =>
      cases g with
      | zero => simp at h2
      | succ g2 =>
        simp only [findallFullAux]
        cases h : tryFullMatch (c :: t) with
        | some p =>
          obtain ⟨m, r⟩ := p
          have hs := tryFullMatch_shrink (c :: t) m r h
          simp only [List.length_cons] at hs h1 h2
          simp only []
          rw [ih g2 r (by omega) (by omega)]
        | none =>
          simp only [List.length_cons] at h1 h2
          exact ih g2 t (by omega) (by omega)

/-- The fuelled no-decimal scanner is insensitive to the fuel above the
input length. -/
theorem findallNoDecAux_fuel :
    ∀ (f : Nat) (g : Nat) (l : List Char), l.length ≤ f → l.length ≤ g →
      findallNoDecAux f l = findallNoDecAux g l := by
  intro f
  induction f with
  | zero =>
    intro g l h1 h2
    have hl : l = [] := List.eq_nil_of_length_eq_zero (Nat.le_zero.mp h1)
    subst hl
    cases g <;> rfl
  | succ f ih =>
    intro g l h1 h2
    cases l with
    | nil => cases g <;> rfl
    | cons c t =>
      cases g with
      | zero => simp at h2
      | succ g2 =>
        simp only [findallNoDecAux]
        cases h : tryNoDecMatch (c :: t) with
        | some p =>
          obtain ⟨m, r⟩ := p
          have hs := tryNoDecMatch_shrink (c :: t) m r h
          simp only [List.length_cons] at hs h1 h2
          simp only []
          rw [ih g2 r (by omega) (by omega)]
        | none =>
          simp only [List.length_cons] at h1 h2
          exact ih g2 t (by omega) (by omega)

/-- A truthy optional string is a present nonempty string. -/
theorem pyTruthyOptStr_iff (o : Option String) :
    pyTruthyOptStr o = true ↔ ∃ s, o = some s ∧ s ≠ "" := by
  cases o with
  | none => simp [pyTruthyOptStr]
  | some s => simp [pyTruthyOptStr]

/-- The empty string is a substring of everything (`"" in hay`). -/
theorem pyContains_empty (hay : String) : pyContains hay "" = true := by
  show subInList "".toList hay.toList = true
  cases h : hay.toList with
  | nil => rfl
  | cons c t => simp [subInList, List.isPrefixOf]

/-- One row-loop step appends exactly that row's spec-side contribution. -/
theorem weeksRowStep_emit (acc : List WeeksRecord) (row : RawRow) :
    weeksRowStep acc row = acc ++ weeksEmittedFrom [row] := by
  simp only [weeksRowStep, weeksEmittedFrom, List.filterMap]
  by_cases h1 : rowTruthy row
  · by_cases h2 : weeksIsDataRow row
    · simp only [h1, h2, if_true, Bool.and_self]
      cases h3 : weeksCleanRowData row with
      | some r => simp [h1, h2, h3, List.filterMap_cons]
      | none => simp [h1, h2, h3, List.filterMap_cons]
    · simp [h1, h2, List.filterMap_cons]
  · simp [h1, List.filterMap_cons]

/-- The row loop appends the spec-side contributions of its rows in
order. -/
theorem weeksRowLoop_emit (rows : List RawRow) :
    ∀ acc, weeksRowLoop acc rows = acc ++ weeksEmittedFrom rows := by
  induction rows with
  | nil => intro acc; simp [weeksRowLoop, weeksEmittedFrom]
  | cons r rest ih =>
    intro acc
    show weeksRowLoop (weeksRowStep acc r) rest = acc ++ weeksEmittedFrom (r :: rest)
    rw [ih, weeksRowStep_emit]
    simp only [weeksEmittedFrom, List.filterMap_cons, List.append_assoc]
    cases h : (if rowTruthy r && weeksIsDataRow r then weeksCleanRowData r else none) with
    | some x => simp [List.filterMap_cons]
    | none => simp [List.filterMap_cons]

/-- The per-page table loop appends exactly the first matching table's
contribution. -/
theorem processTables_rows (st : WeeksState) (txt : Option String) (tables : List RawTable) :
    (processTables st txt tables).rows
      = st.rows ++ (match tables.find? weeksAccept with
        | some t => weeksEmittedFrom (if st.headersProcessed then t else t.drop 1)
        | none => []) := by
  induction tables with
  | nil => simp [processTables]
  | cons t ts ih =>
    by_cases h : weeksAccept t
    · simp only [processTables, h, if_true, List.find?_cons_of_pos _ h]
      simp only [processAccepted]
      rw [weeksRowLoop_emit]
    · simp only [processTables]
      rw [if_neg h, List.find?_cons_of_neg _ (by simp [h])]
      exact ih

/-- The table loop never clears the header-consumed flag, and sets it
whenever some table matches. -/
theorem processTables_flag (st : WeeksState) (txt : Option String) (tables : List RawTable) :
    (st.headersProcessed = true → (processTables st txt tables).headersProcessed = true)
      ∧ (tables.any weeksAccept = true → (processTables st txt tables).headersProcessed = true) := by
  induction tables with
  | nil => simp [processTables]
  | cons t ts ih =>
    by_cases h : weeksAccept t
    · simp only [processTables, h, if_true]
      constructor <;> intro _ <;> rfl
    · simp only [processTables, h, if_false, List.any_cons, Bool.false_or]
      exact ⟨ih.1, fun ha => ih.2 (by simpa [h] using ha)⟩

/-- A page with a valid table never triggers the end-of-table check. -/
theorem checkForTableEnd_of_valid (tables : List RawTable) (text : Option String)
    (h : hasHeadersCached tables = true) : checkForTableEnd tables text = false := by
  simp [checkForTableEnd, h]

/-- What a page step does to the record list. -/
theorem processPage_rows (st : WeeksState) (p : Page) :
    (processPage st p).1.rows
      = st.rows ++ (if hasHeadersCached p.tables then pageEmitted st p else []) := by
  by_cases h : hasHeadersCached p.tables
  · simp only [processPage, h, Bool.not_true, Bool.false_eq_true, if_false,
      checkForTableEnd_of_valid p.tables p.text h, if_true]
    rw [processTables_rows]
    rfl
  · simp only [processPage, h, Bool.not_false, if_true]
    simp [h]

/-- A page step never clears the header-consumed flag. -/
theorem processPage_flag_mono (st : WeeksState) (p : Page)
    (h : st.headersProcessed = true) : (processPage st p).1.headersProcessed = true := by
  by_cases hh : hasHeadersCached p.tables
  · simp only [processPage, hh, Bool.not_true, Bool.false_eq_true, if_false,
      checkForTableEnd_of_valid p.tables p.text hh, if_true]
    exact (processTables_flag st p.text p.tables).1 h
  · simp only [processPage, hh, Bool.not_false, if_true]
    exact h

/-- The page loop never clears the header-consumed flag. -/
theorem processPages_flag_mono (pages : List Page) :
    ∀ st : WeeksState, st.headersProcessed = true →
      (processPages st pages).headersProcessed = true := by
  induction pages with
  | nil => intro st h; exact h
  | cons p ps ih =>
    intro st h
    simp only [processPages]
    by_cases hs : (processPage st p).2
    · simp only [hs, if_true]
      exact processPage_flag_mono st p h
    · simp only [hs, Bool.false_eq_true, if_false]
      exact ih _ (processPage_flag_mono st p h)

/-- A stripped cell yields a string only for a present nonempty raw
cell, and then yields its stripped text. -/
theorem stripCellOrNone_some (c : Cell) (s : String) (h : stripCellOrNone c = some s) :
    ∃ raw, c = some raw ∧ ¬(raw = "") ∧ s = pyStrip raw := by
  cases c with
  | none => simp [stripCellOrNone] at h
  | some raw =>
    by_cases hz : raw = ""
    · simp [stripCellOrNone, hz] at h
    · refine ⟨raw, rfl, hz, ?_⟩
      simp only [stripCellOrNone, hz, if_false] at h
      exact (Option.some.injEq _ _ ▸ h).symm

/-- The first-cell text used by the row classifier agrees with the
identifier cell read by the record builder. -/
theorem firstCellText_of_getD (row : RawRow) (raw : String)
    (h : row.getD 0 none = some raw) (hne : ¬(raw = "")) :
    firstCellText row = pyStrip raw := by
  cases row with
  | nil => simp [List.getD] at h
  | cons c0 t =>
    have hc : c0 = some raw := by simpa [List.getD] using h
    subst hc
    simp [firstCellText, hne]

/-- A cleaned weeks record reads its identifier from the first cell and
only exists for nine-cell rows. -/
theorem weeksCleanRowData_fields (row : RawRow) (rec : WeeksRecord)
    (h : weeksCleanRowData row = some rec) :
    rec.cont_id = stripCellOrNone (row.getD 0 none) ∧ row.length = 9 := by
  simp only [weeksCleanRowData] at h
  split at h
  · exact absurd h (by simp)
  · rename_i hlen
    simp only [Option.some.injEq] at h
    constructor
    · rw [← h]
    · omega

/-- A row the classifier accepts as data has no repeated-header marker
in its lowered first cell. -/
theorem weeksIsDataRow_no_marker (row : RawRow) (h : weeksIsDataRow row = true) :
    ∀ ind ∈ weeksHeaderIndicators, pyContains (pyLower (firstCellText row)) ind = false := by
  intro ind hind
  by_contra hc
  have hB : weeksHeaderIndicators.any
      (fun i => pyContains (pyLower (firstCellText row)) i) = true :=
    List.any_eq_true.mpr ⟨ind, hind, by simpa using hc⟩
  simp only [weeksIsDataRow] at h
  by_cases h1 : row.length < 3
  · rw [if_pos h1] at h
    exact absurd h (by simp)
  · rw [if_neg h1] at h
    by_cases h2 : (totalIndicators.any
        fun i => pyContains (pyLower (firstCellText row)) i) = true
    · rw [if_pos h2] at h
      exact absurd h (by simp)
    · rw [if_neg h2, if_pos hB] at h
      exact absurd h (by simp)

/-- No record emitted by the spec-side row extraction carries a
repeated-header marker in its identifier. -/
theorem weeksEmittedFrom_no_marker (rows : List RawRow) (r : WeeksRecord)
    (hm : r ∈ weeksEmittedFrom rows) (s : String) (hs : r.cont_id = some s) :
    pyContains (pyLower s) "identificación" = false := by
  obtain ⟨row, hrow, hf⟩ := List.mem_filterMap.mp hm
  by_cases hc : (rowTruthy row && weeksIsDataRow row) = true
  · rw [if_pos hc] at hf
    have hdata : weeksIsDataRow row = true := by
      have hc2 := hc
      simp only [Bool.and_eq_true] at hc2
      exact hc2.2
    obtain ⟨hid, hlen⟩ := weeksCleanRowData_fields row r hf
    obtain ⟨raw, hraw, hne, hstrip⟩ := stripCellOrNone_some _ s (by rw [← hid, hs])
    have hfc : firstCellText row = pyStrip raw := firstCellText_of_getD row raw hraw hne
    have hmk := weeksIsDataRow_no_marker row hdata "identificación"
      (by simp [weeksHeaderIndicators])
    rw [hfc, ← hstrip] at hmk
    exact hmk
  · rw [if_neg hc] at hf
    exact absurd hf (by simp)

/-- No record contributed by a page carries a repeated-header marker in
its identifier. -/
theorem pageEmitted_no_marker (st : WeeksState) (p : Page) (r : WeeksRecord)
    (hm : r ∈ pageEmitted st p) (s : String) (hs : r.cont_id = some s) :
    pyContains (pyLower s) "identificación" = false := by
  simp only [pageEmitted] at hm
  cases hfind : p.tables.find? weeksAccept with
  | none => rw [hfind] at hm; simp at hm
  | some t =>
    rw [hfind] at hm
    exact weeksEmittedFrom_no_marker _ r hm s hs

/-- No record the page loop adds to the state carries a repeated-header
marker in its identifier. -/
theorem processPages_no_marker (pages : List Page) :
    ∀ (st : WeeksState) (r : WeeksRecord), r ∈ (processPages st pages).rows → r ∉ st.rows →
      ∀ s, r.cont_id = some s → pyContains (pyLower s) "identificación" = false := by
  induction pages with
  | nil =>
    intro st r hr hn
    exact absurd hr hn
  | cons p ps ih =>
    intro st r hr hn s hs
    simp only [processPages] at hr
    have hsplit : r ∈ (processPage st p).1.rows → r ∈ st.rows ∨ r ∈ pageEmitted st p := by
      intro hmem
      rw [processPage_rows] at hmem
      rcases List.mem_append.mp hmem with h | h
      · exact Or.inl h
      · by_cases hh : hasHeadersCached p.tables = true
        · rw [if_pos hh] at h
          exact Or.inr h
        · rw [if_neg hh] at h
          simp at h
    by_cases hstop : (processPage st p).2 = true
    · rw [if_pos hstop] at hr
      rcases hsplit hr with h | h
      · exact absurd h hn
      · exact pageEmitted_no_marker st p r h s hs
    · rw [if_neg hstop] at hr
      by_cases hmem : r ∈ (processPage st p).1.rows
      · rcases hsplit hmem with h | h
        · exact absurd h hn
        · exact pageEmitted_no_marker st p r h s hs
      · exact ih _ r hr hmem s hs

/-- Peeling one page off the last-successful-value aggregation. -/
theorem lastSuccessful_cons (x : Option Dec) (l : List (Option Dec)) :
    lastSuccessful (x :: l)
      = match lastSuccessful l with
        | some v => some v
        | none => x := by
  cases x with
  | none =>
    have h1 : lastSuccessful (none :: l) = lastSuccessful l := by
      simp [lastSuccessful, List.filterMap_cons]
    rw [h1]
    cases h : lastSuccessful l <;> simp
  | some v =>
    have h1 : lastSuccessful (some v :: l) = (v :: l.filterMap id).getLast? := by
      simp [lastSuccessful, List.filterMap_cons]
    rw [h1]
    cases h : l.filterMap id with
    | nil =>
      simp [lastSuccessful, h]
    | cons w t =>
      rw [List.getLast?_cons_cons]
      have h3 : lastSuccessful l = (w :: t).getLast? := by simp [lastSuccessful, h]
      rw [h3]
      cases h2 : (w :: t).getLast? with
      | none => simp [List.getLast?_eq_none_iff] at h2
      | some u => simp

/-- On a document whose pages never match the weeks schema, the run
mines every page and each aggregate field ends at the last successfully
extracted value, keeping the prior value through null extractions. -/
theorem processPages_summary_lastwins (pages : List Page) :
    ∀ st : WeeksState, (∀ p ∈ pages, hasHeadersCached p.tables = false) →
      st.tableFound = false →
      ((processPages st pages).summary.total
        = match lastSuccessful (pages.map fun p => (extractSummaryValues p.text).total) with
          | some v => some v
          | none => st.summary.total)
      ∧ ((processPages st pages).summary.highRisk
        = match lastSuccessful (pages.map fun p => (extractSummaryValues p.text).highRisk) with
          | some v => some v
          | none => st.summary.highRisk) := by
  induction pages with
  | nil =>
    intro st hnb hf
    simp [processPages, lastSuccessful]
  | cons p ps ih =>
    intro st hnb hf
    have hp : hasHeadersCached p.tables = false := hnb p (by simp)
    simp only [processPages]
    have hpp1 : (processPage st p).1
        = { st with summary := updateSummary st.summary (extractSummaryValues p.text) } := by
      simp [processPage, hp]
    have hpp2 : (processPage st p).2 = st.tableFound := by
      simp [processPage, hp]
    rw [if_neg (by simp [hpp2, hf]), hpp1]
    obtain ⟨iht, ihh⟩ :=
      ih { st with summary := updateSummary st.summary (extractSummaryValues p.text) }
        (fun q hq => hnb q (by simp [hq])) (by simp [hf])
    constructor
    · rw [iht, List.map_cons, lastSuccessful_cons]
      cases h1 : lastSuccessful (ps.map fun p => (extractSummaryValues p.text).total) with
      | some v => simp
      | none => simp [updateSummary]
    · rw [ihh, List.map_cons, lastSuccessful_cons]
      cases h1 : lastSuccessful (ps.map fun p => (extractSummaryValues p.text).highRisk) with
      | some v => simp
      | none => simp [updateSummary]

/-- The left fold of `Nat.min` is attained and bounds every element and
the seed. -/
theorem foldl_min_spec (l : List Nat) :
    ∀ m0 : Nat, (l.foldl Nat.min m0 = m0 ∨ l.foldl Nat.min m0 ∈ l)
      ∧ (∀ x ∈ l, l.foldl Nat.min m0 ≤ x) ∧ l.foldl Nat.min m0 ≤ m0 := by
  induction l with
  | nil => intro m0; exact ⟨Or.inl rfl, by simp, Nat.le_refl m0⟩
  | cons a t ih =>
    intro m0
    obtain ⟨hmem, hbd, hseed⟩ := ih (Nat.min m0 a)
    have hres : (a :: t).foldl Nat.min m0 = t.foldl Nat.min (Nat.min m0 a) := rfl
    have hma : Nat.min m0 a = m0 ∨ Nat.min m0 a = a := by
      rcases Nat.le_total m0 a with h | h
      · exact Or.inl (Nat.min_eq_left h)
      · exact Or.inr (Nat.min_eq_right h)
    have hle : Nat.min m0 a ≤ m0 ∧ Nat.min m0 a ≤ a :=
      ⟨Nat.min_le_left m0 a, Nat.min_le_right m0 a⟩
    refine ⟨?_, ?_, ?_⟩
    · rcases hmem with h | h
      · rw [hres, h]
        rcases hma with h2 | h2
        · exact Or.inl h2
        · right
          rw [h2]
          simp
      · right
        rw [hres]
        simp [h]
    · intro x hx
      rcases List.mem_cons.mp hx with h | h
      · rw [hres]
        subst h
        omega
      · exact hbd x h
    · rw [hres]
      omega

/-- The left fold of `Nat.max` is attained and dominates every element
and the seed. -/
theorem foldl_max_spec (l : List Nat) :
    ∀ m0 : Nat, (l.foldl Nat.max m0 = m0 ∨ l.foldl Nat.max m0 ∈ l)
      ∧ (∀ x ∈ l, x ≤ l.foldl Nat.max m0) ∧ m0 ≤ l.foldl Nat.max m0 := by
  induction l with
  | nil => intro m0; exact ⟨Or.inl rfl, by simp, Nat.le_refl m0⟩
  | cons a t ih =>
    intro m0
    obtain ⟨hmem, hbd, hseed⟩ := ih (Nat.max m0 a)
    have hres : (a :: t).foldl Nat.max m0 = t.foldl Nat.max (Nat.max m0 a) := rfl
    have hma : Nat.max m0 a = m0 ∨ Nat.max m0 a = a := by
      rcases Nat.le_total m0 a with h | h
      · exact Or.inr (Nat.max_eq_right h)
      · exact Or.inl (Nat.max_eq_left h)
    have hle : m0 ≤ Nat.max m0 a ∧ a ≤ Nat.max m0 a :=
      ⟨Nat.le_max_left m0 a, Nat.le_max_right m0 a⟩
    refine ⟨?_, ?_, ?_⟩
    · rcases hmem with h | h
      · rw [hres, h]
        rcases hma with h2 | h2
        · exact Or.inl h2
        · right
          rw [h2]
          simp
      · right
        rw [hres]
        simp [h]
    · intro x hx
      rcases List.mem_cons.mp hx with h | h
      · rw [hres]
        subst h
        omega
      · exact hbd x h
    · rw [hres]
      omega

/-- The bounded lookahead walk is the first successful probe of the
window. -/
theorem summaryLookahead_eq_findSome (cond : Dec → Bool) (f : String → Option Dec) :
    ∀ l : List String,
      summaryLookahead cond f l
        = l.findSome? (fun lraw =>
            if pyStrip lraw = "" then none
            else
              match f (pyStrip lraw) with
              | some v => if cond v then some v else none
              | none => none) := by
  intro l
  induction l with
  | nil => rfl
  | cons a t ih =>
    rw [List.findSome?_cons]
    by_cases hz : pyStrip a = ""
    · simp only [summaryLookahead, hz]
      simpa using ih
    · simp only [summaryLookahead, hz]
      cases hf : f (pyStrip a) with
      | none => simpa using ih
      | some v =>
        by_cases hc : cond v = true
        · simp [hc]
        · simp only [hc, Bool.false_eq_true, if_false]
          simpa using ih

/-- The broken inner loop of `_count_header_matches` counts exactly the
expected labels with a matching cell. -/
theorem countHeaderMatchesAux_eq (headers : List String) :
    ∀ es : List String,
      countHeaderMatchesAux headers es
        = es.countP (fun e => headers.any (fun h => headerMatchB e h)) := by
  intro es
  induction es with
  | nil => rfl
  | cons e es ih =>
    rw [List.countP_cons]
    simp only [countHeaderMatchesAux, ih]
    by_cases hc : headers.any (fun h => headerMatchB e h) = true
    · simp [hc]
      omega
    · simp [hc]

/-- `_count_header_matches` equals the spec-side acceptance score. -/
theorem countHeaderMatches_eq_score (headers : List String) :
    countHeaderMatches headers = weeksHeaderScore headers :=
  countHeaderMatchesAux_eq headers weeksExpectedHeaders

/-- The page scan of `find_table_with_headers` is the first table
satisfying the acceptance condition. -/
theorem findTableWithHeaders_eq_find (tables : List RawTable) :
    findTableWithHeaders tables = tables.find? weeksAccept := by
  induction tables with
  | nil => rfl
  | cons t ts ih =>
    by_cases h : weeksAccept t
    · rw [List.find?_cons_of_pos _ h]
      simp [findTableWithHeaders, h]
    · rw [List.find?_cons_of_neg _ (by simp [h])]
      simp only [findTableWithHeaders]
      rw [if_neg h]
      exact ih

/-- The acceptance condition spelled out as the spec states it. -/
theorem weeksAccept_iff (t : RawTable) :
    weeksAccept t = true
      ↔ 2 ≤ t.length ∧ (headerCells (t.headD [])).length = 9
        ∧ 6 ≤ weeksHeaderScore (headerCells (t.headD [])) := by
  cases t with
  | nil => simp [weeksAccept]
  | cons r0 rest =>
    cases rest with
    | nil => simp [weeksAccept]
    | cons r1 rest2 =>
      simp only [weeksAccept, List.headD_cons, List.length_cons]
      rw [← countHeaderMatches_eq_score]
      by_cases h9 : (headerCells r0).length = 9
      · rw [if_pos h9]
        simp [h9]
      · rw [if_neg h9]
        simp [h9]

/-- The source period normalizer agrees with its spec-side description
everywhere: the null markers of the skip list never begin with six
digits, so the two definitions coincide. -/
theorem payNormalizePeriod_eq_spec (s : String) :
    payNormalizePeriod (some s) = normalizePeriodSpec s := by
  by_cases h1 : pyStrip s = ""
  · have hR : normalizePeriodSpec s = none := by
      unfold normalizePeriodSpec
      rw [h1]
      rfl
    have hL : payNormalizePeriod (some s) = none := by
      unfold payNormalizePeriod
      simp [h1]
    rw [hL, hR]
  · by_cases h2 : pyStrip s = "--"
    · have hR : normalizePeriodSpec s = none := by
        unfold normalizePeriodSpec
        rw [h2]
        rfl
      have hL : payNormalizePeriod (some s) = none := by
        unfold payNormalizePeriod
        simp [h2]
      rw [hL, hR]
    · by_cases h3 : pyStrip s = "N/A"
      · have hR : normalizePeriodSpec s = none := by
          unfold normalizePeriodSpec
          rw [h3]
          rfl
        have hL : payNormalizePeriod (some s) = none := by
          unfold payNormalizePeriod
          simp [h3]
        rw [hL, hR]
      · by_cases h0 : s = ""
        · exact absurd (by rw [h0]; rfl) h1
        · unfold payNormalizePeriod normalizePeriodSpec
          simp [h0, h1, h2, h3]

/-- A record the payments builder emits has a non-empty identifier and
a non-empty name. -/
theorem payCleanRowData_emits (row : RawRow) (rec : PayRecord)
    (h : payCleanRowData row = some rec) :
    (∃ s, rec.cont_id = some s ∧ s ≠ "") ∧ (∃ s, rec.cont_name = some s ∧ s ≠ "") := by
  simp only [payCleanRowData] at h
  split at h
  · exact absurd h (by simp)
  · split at h
    · rename_i hcond
      simp only [Bool.and_eq_true] at hcond
      simp only [Option.some.injEq] at h
      rw [← h]
      exact ⟨(pyTruthyOptStr_iff _).mp hcond.1, (pyTruthyOptStr_iff _).mp hcond.2⟩
    · exact absurd h (by simp)

/-- Membership in the enumerated month range. -/
theorem mem_monthsBetween (lo hi k : Nat) :
    k ∈ (List.range (hi - lo + 1)).map (lo + ·) ↔ lo ≤ k ∧ k ≤ lo + (hi - lo) := by
  simp only [List.mem_map, List.mem_range]
  constructor
  · rintro ⟨i, hi2, rfl⟩
    omega
  · rintro ⟨ha, hb⟩
    exact ⟨k - lo, by omega, by omega⟩

/-- The enumerated month range is strictly increasing. -/
theorem monthsBetween_pairwise (lo n : Nat) :
    ((List.range n).map (lo + ·)).Pairwise (· < ·) := by
  have h := List.pairwise_lt_range n
  exact List.Pairwise.map _ (fun a b hab => by omega) h

/-! ### Claim theorems -/

/-- C1: evaluating the salary cleaner at the spec's own example.  The
initial substitution `re.sub(r'[$,\s]', '', ...)` deletes the decimal
comma together with the currency symbols, so `"$ 1.235.000,50"` becomes
`"1.235.00050"`, whose dots are then stripped as thousands separators:
the result is `123500050.0`, not the `1235000.50` promised by the spec
and by the function's own docstring. -/
theorem c1_clean_salary_decimal_comma_lost :
    cleanSalary (some "$ 1.235.000,50") = some (Dec.ofNat 123500050) := by decide

/-- C4 counterexample: a seven-digit period is not rejected — `re.match`
anchors only at the start, so `"1997123"` normalizes to `"1997-12"`
although the claim demands null for inputs that are not exactly six
digits. -/
theorem c4_prefix_match_seven_digits :
    payNormalizePeriod (some "1997123") = some "1997-12"
      ∧ ("1997123" : String).length = 7 := by decide

/-- C4 as amended: the period normalizer returns `YYYY-MM` exactly when
the stripped input begins with six digits whose final pair is a month in
`01..12` (trailing characters ignored), and null otherwise — the
behaviour captured by `normalizePeriodSpec`. -/
theorem c4_normalize_period_prefix_spec (s : String) :
    payNormalizePeriod (some s) = normalizePeriodSpec s :=
  payNormalizePeriod_eq_spec s

/-- C2 counterexample: a thirteen-cell row whose positional day columns
hold `45` and `20` is emitted with `reported_days = 45`, outside the
claimed range `[1, 31]` — the positional mapping never checks the
range. -/
theorem c2_positional_days_escape_range :
    payCleanRowData c2Row = some
      { cont_id := some "1234567", cont_name := some "PEPE PEREZ", cont_period := some "1997-12",
        cont_reported_ibc := some (Dec.ofNat 100000), cont_reported_days := some 45,
        cont_contributed_days := some 20 }
      ∧ ¬((45 : Int) ≤ 31) := by decide

/-- C2 as amended: the payments record builder emits a record only when
both the contributor id and the contributor name are non-empty after
stripping; the day fields are integers or null, but the `[1, 31]` bound
is enforced only by the content-sniffing fallback, not by the positional
mapping. -/
theorem c2_record_requires_id_and_name (row : RawRow) (rec : PayRecord)
    (h : payCleanRowData row = some rec) :
    (∃ s, rec.cont_id = some s ∧ s ≠ "") ∧ (∃ s, rec.cont_name = some s ∧ s ≠ "") :=
  payCleanRowData_emits row rec h

/-- Witness for the amended C2 at the concrete thirteen-cell row. -/
theorem c2_record_requires_id_and_name_witness :
    (∃ s, (some "1234567" : Option String) = some s ∧ s ≠ "")
      ∧ (∃ s, (some "PEPE PEREZ" : Option String) = some s ∧ s ≠ "") :=
  c2_record_requires_id_and_name c2Row
    { cont_id := some "1234567", cont_name := some "PEPE PEREZ", cont_period := some "1997-12",
      cont_reported_ibc := some (Dec.ofNat 100000), cont_reported_days := some 45,
      cont_contributed_days := some 20 } (by decide)

/-- C10: a table with at least two rows whose first row consists of nine
empty (absent or whitespace-only) cells is accepted by the weeks schema
matcher: the empty string is a substring of every expected label, so all
nine expected headers count as matched and the score meets the
threshold. -/
theorem c10_blank_headers_accepted (t : RawTable)
    (h2 : 2 ≤ t.length) (h9 : (t.headD []).length = 9)
    (hb : ∀ c ∈ t.headD [], cellText c = "") :
    weeksAccept t = true ∧ countHeaderMatches (headerCells (t.headD [])) = 9 := by
  have hlen : (headerCells (t.headD [])).length = 9 := by
    unfold headerCells
    rw [List.length_map]
    exact h9
  have hall : ∀ h ∈ headerCells (t.headD []), h = "" := by
    intro h hh
    obtain ⟨c, hc, hceq⟩ := List.mem_map.mp hh
    rw [← hceq]
    exact hb c hc
  have hscore : ∀ es : List String,
      countHeaderMatchesAux (headerCells (t.headD [])) es = es.length := by
    intro es
    rw [countHeaderMatchesAux_eq]
    rw [List.countP_eq_length]
    intro e he
    apply List.any_eq_true.mpr
    obtain ⟨h0, hh0⟩ := List.exists_mem_of_length_pos (by rw [hlen]; omega)
    refine ⟨h0, hh0, ?_⟩
    rw [hall h0 hh0]
    simp only [headerMatchB]
    have hz : pyLower "" = "" := rfl
    rw [hz, pyContains_empty (pyLower e)]
    simp
  have h99 : countHeaderMatches (headerCells (t.headD [])) = 9 := by
    rw [countHeaderMatches, hscore]
    rfl
  refine ⟨?_, h99⟩
  rw [weeksAccept_iff]
  refine ⟨h2, hlen, ?_⟩
  rw [← countHeaderMatches_eq_score, h99]
  omega

/-- Witness for C10 at a concrete table of nine absent header cells. -/
theorem c10_blank_headers_accepted_witness :
    weeksAccept c10Table = true
      ∧ countHeaderMatches (headerCells (c10Table.headD [])) = 9 :=
  c10_blank_headers_accepted c10Table (by decide) (by decide) (by decide)

/-- C7: the weeks schema matcher.  The page scan returns the first table
satisfying the acceptance condition; the broken counting loop equals the
spec-side score (at most one point per expected label, symmetric
case-insensitive containment); and a table is accepted exactly when it
has at least two rows, exactly nine first-row cells, and a score of at
least six. -/
theorem c7_schema_matcher_characterization :
    (∀ tables : List RawTable, findTableWithHeaders tables = tables.find? weeksAccept)
      ∧ (∀ headers : List String, countHeaderMatches headers = weeksHeaderScore headers)
      ∧ (∀ t : RawTable,
          weeksAccept t = true
            ↔ 2 ≤ t.length ∧ (headerCells (t.headD [])).length = 9
              ∧ 6 ≤ weeksHeaderScore (headerCells (t.headD []))) :=
  ⟨findTableWithHeaders_eq_find, countHeaderMatches_eq_score, weeksAccept_iff⟩

/-- C6: a page holding a schema-matching table is never a termination
point — the end-of-table check returns false there, the page step does
not stop the run, and the page's data rows are still harvested (the
record list grows by exactly the first matching table's contribution). -/
theorem c6_valid_table_page_never_terminates (st : WeeksState) (p : Page)
    (h : hasHeadersCached p.tables = true) :
    checkForTableEnd p.tables p.text = false
      ∧ (processPage st p).2 = false
      ∧ (processPage st p).1.rows = st.rows ++ pageEmitted st p := by
  refine ⟨checkForTableEnd_of_valid p.tables p.text h, ?_, ?_⟩
  · simp [processPage, h, checkForTableEnd_of_valid p.tables p.text h]
  · rw [processPage_rows, if_pos h]

/-- Witness for C6 at a page carrying both a valid table and
end-of-table text. -/
theorem c6_valid_table_page_never_terminates_witness :
    checkForTableEnd c6Page.tables c6Page.text = false
      ∧ (processPage initWeeksState c6Page).2 = false
      ∧ (processPage initWeeksState c6Page).1.rows
          = initWeeksState.rows ++ pageEmitted initWeeksState c6Page :=
  c6_valid_table_page_never_terminates initWeeksState c6Page (by decide)

/-- C5: the header-consumed flag of the weeks run.  It starts false,
never resets once true; any page whose tables contain a matching table sets it; while it
is false an accepted table's first row is skipped as the header, and
once it is true the first row is classified like every other row; and
consequently a record whose identifier carries the repeated-header
marker is never emitted by the run. -/
theorem c5_header_flag_lifecycle :
    initWeeksState.headersProcessed = false
      ∧ (∀ (st : WeeksState) (pages : List Page), st.headersProcessed = true →
        (processPages st pages).headersProcessed = true)
      ∧ (∀ (st : WeeksState) (txt : Option String) (tables : List RawTable),
          tables.any weeksAccept = true →
          (processTables st txt tables).headersProcessed = true)
      ∧ (∀ (st : WeeksState) (txt : Option String) (t : RawTable),
          st.headersProcessed = false →
          (processAccepted st txt t).rows = st.rows ++ weeksEmittedFrom (t.drop 1))
      ∧ (∀ (st : WeeksState) (txt : Option String) (t : RawTable),
          st.headersProcessed = true →
          (processAccepted st txt t).rows = st.rows ++ weeksEmittedFrom t)
      ∧ (∀ (st : WeeksState) (pages : List Page) (r : WeeksRecord) (s : String),
          r ∈ (processPages st pages).rows → r ∉ st.rows → r.cont_id = some s →
          pyContains (pyLower s) "identificación" = false) := by
  refine ⟨rfl, ?_, ?_, ?_, ?_, ?_⟩
  · intro st pages h
    exact processPages_flag_mono pages st h
  · intro st txt tables h
    exact (processTables_flag st txt tables).2 h
  · intro st txt t h
    simp [processAccepted, h, weeksRowLoop_emit]
  · intro st txt t h
    simp [processAccepted, h, weeksRowLoop_emit]
  · intro st pages r s h1 h2 h3
    exact processPages_no_marker pages st r h1 h2 s h3

/-- Witness for C5: the flag survives an empty run, a matching table
sets it, the first accepted table drops its header row, and a concrete
emitted record is marker-free. -/
theorem c5_header_flag_lifecycle_witness :
    (processPages (⟨[], ⟨none, none⟩, false, true⟩ : WeeksState) []).headersProcessed = true
      ∧ (processTables initWeeksState none [wTable]).headersProcessed = true
      ∧ (processAccepted initWeeksState none wTable).rows
          = initWeeksState.rows ++ weeksEmittedFrom (wTable.drop 1)
      ∧ pyContains (pyLower "890326878") "identificación" = false := by
  have h := c5_header_flag_lifecycle
  refine ⟨h.2.1 _ [] rfl, h.2.2.1 initWeeksState none [wTable] (by decide),
    h.2.2.2.1 initWeeksState none wTable rfl, ?_⟩
  exact h.2.2.2.2.2 initWeeksState [⟨[wTable], none⟩] wRecord "890326878"
    (by decide) (by decide) (by decide)

/-- The table loop merges the page summary exactly when a table is
accepted. -/
theorem processTables_summary (st : WeeksState) (txt : Option String) (tables : List RawTable) :
    (processTables st txt tables).summary
      = if tables.any weeksAccept then updateSummary st.summary (extractSummaryValues txt)
        else st.summary := by
  induction tables with
  | nil => simp [processTables]
  | cons t ts ih =>
    by_cases h : weeksAccept t
    · simp [processTables, h, processAccepted]
    · simp only [processTables]
      rw [if_neg h, ih]
      simp [List.any_cons, h]

/-- Every page step merges the page's mined summary into the aggregate:
a successfully parsed value overwrites, a null leaves the prior value. -/
theorem processPage_summary (st : WeeksState) (p : Page) :
    (processPage st p).1.summary = updateSummary st.summary (extractSummaryValues p.text) := by
  by_cases hh : hasHeadersCached p.tables = true
  · simp only [processPage, hh, Bool.not_true, Bool.false_eq_true, if_false,
      checkForTableEnd_of_valid p.tables p.text hh, if_true]
    rw [processTables_summary]
    rw [if_pos (show p.tables.any weeksAccept = true from hh)]
  · simp only [processPage, hh]
    simp [hh]

/-- C8: last-non-null-wins aggregation of the summary fields across the
pages of a run (stated on runs whose pages carry no weeks table, so
every page is mined; a later page's successfully parsed value overwrites
an earlier one and a null extraction leaves the prior value unchanged). -/
theorem c8_summary_last_non_null_wins :
    (∀ (st : WeeksState) (p : Page),
        (processPage st p).1.summary = updateSummary st.summary (extractSummaryValues p.text))
      ∧ (∀ (st : WeeksState) (pages : List Page),
          (∀ p ∈ pages, hasHeadersCached p.tables = false) → st.tableFound = false →
          ((processPages st pages).summary.total
            = match lastSuccessful (pages.map fun p => (extractSummaryValues p.text).total) with
              | some v => some v
              | none => st.summary.total)
            ∧ ((processPages st pages).summary.highRisk
              = match lastSuccessful
                  (pages.map fun p => (extractSummaryValues p.text).highRisk) with
                | some v => some v
                | none => st.summary.highRisk)) :=
  ⟨processPage_summary, fun st pages hnb hf => processPages_summary_lastwins pages st hnb hf⟩

/-- Witness for C8: the spec's own two-page scenario — `1193,00` two
lines under the marker on one page, `1250,00` on a later page — ends at
`1250.00`. -/
theorem c8_summary_last_non_null_wins_witness :
    (processPages initWeeksState [c8Page1, c8Page2]).summary.total = some (Dec.ofNat 1250)
      ∧ (processPage initWeeksState c8Page1).1.summary
          = updateSummary initWeeksState.summary (extractSummaryValues c8Page1.text) := by
  have h := c8_summary_last_non_null_wins
  constructor
  · rw [(h.2 initWeeksState [c8Page1, c8Page2] (by decide) rfl).1]
    decide
  · exact h.1 initWeeksState c8Page1

/-- C3 counterexample: a value on the marker line itself is accepted
with no `> 100` floor — `"[26] TOTAL SEMANAS 50,00"` sets the total to
`50.0`, though the claim says a same-line value is accepted only when
greater than one hundred. -/
theorem c3_same_line_accepts_small_value :
    extractSummaryValues (some "[26] TOTAL SEMANAS 50,00") = ⟨some (Dec.ofNat 50), none⟩
      ∧ Dec.blt (Dec.ofNat 100) (Dec.ofNat 50) = false := by decide

/-- C3 as amended: on a line carrying the `[26]` marker and the phrase,
a same-line value is accepted whenever it differs from the tag `26`
(no magnitude floor); only otherwise are the following four lines
scanned, where the first non-blank line whose value differs from `26`
and exceeds `100` wins; the high-risk field is untouched. -/
theorem c3_marker26_same_line_then_lookahead (sv : Summary) (lraw : String) (rest : List String)
    (h26 : pyContains (pyStrip lraw) "[26]" = true)
    (htot : pyContains (pyLower (pyStrip lraw)) "total semanas" = true) :
    (esvStep sv lraw rest).highRisk = sv.highRisk
      ∧ (esvStep sv lraw rest).total =
          (match extractSummaryNumeric (pyStrip lraw) with
           | some v =>
             if v = Dec.ofNat 26 then
               match (rest.take 4).findSome? look26Spec with
               | some w => some w
               | none => sv.total
             else some v
           | none =>
             match (rest.take 4).findSome? look26Spec with
             | some w => some w
             | none => sv.total) := by
  have hcond : (pyContains (pyStrip lraw) "[26]"
      && pyContains (pyLower (pyStrip lraw)) "total semanas") = true := by
    rw [h26, htot]
    rfl
  have hlk : summaryLookahead cond26 extractSummaryNumeric (rest.take 4)
      = (rest.take 4).findSome? look26Spec := by
    rw [summaryLookahead_eq_findSome]
    rfl
  simp only [esvStep, hcond, if_true, hlk]
  constructor
  · cases hm : extractSummaryNumeric (pyStrip lraw) with
    | none => cases hl : (rest.take 4).findSome? look26Spec <;> simp
    | some v =>
      by_cases hv : v = Dec.ofNat 26
      · simp only [hv, if_pos rfl]
        cases hl : (rest.take 4).findSome? look26Spec <;> simp
      · simp [hv]
  · cases hm : extractSummaryNumeric (pyStrip lraw) with
    | none => cases hl : (rest.take 4).findSome? look26Spec <;> simp
    | some v =>
      by_cases hv : v = Dec.ofNat 26
      · simp only [hv, if_pos rfl]
        cases hl : (rest.take 4).findSome? look26Spec <;> simp
      · simp [hv]

/-- Witness for the amended C3 at a concrete marker line carrying the
small same-line value. -/
theorem c3_marker26_same_line_then_lookahead_witness :
    (esvStep ⟨none, none⟩ "[26] TOTAL SEMANAS 50,00" []).total = some (Dec.ofNat 50) := by
  have h := c3_marker26_same_line_then_lookahead ⟨none, none⟩ "[26] TOTAL SEMANAS 50,00" []
    (by decide) (by decide)
  rw [h.2]
  decide

/-- A single unparseable period fails the whole parse phase. -/
theorem parseAll_none (f : String → Option Nat) :
    ∀ (l : List String) (s : String), s ∈ l → f s = none → parseAll f l = none := by
  intro l
  induction l with
  | nil => intro s hs; exact absurd hs (by simp)
  | cons x t ih =>
    intro s hs hf
    rcases List.mem_cons.mp hs with h | h
    · subst h
      simp [parseAll, hf]
    · simp only [parseAll]
      cases hx : f x with
      | none => rfl
      | some v =>
        rw [ih s h hf]

/-- C9: the gap analyzer.  On a successfully parsed non-empty period
column it reports the earliest period as start, the latest as end, and
the chronologically ordered list of exactly the months strictly between
them that are absent from the column, with its length as the count; an
empty column or any unparseable period raises instead. -/
theorem c9_gap_report_characterization :
    (∀ (periods : List String) (m0 : Nat) (ms : List Nat),
        parsePeriods periods = some (m0 :: ms) →
        ∃ rep, getMissingPeriodsJson periods = some rep
          ∧ ∃ lo hi,
              lo ∈ m0 :: ms ∧ (∀ x ∈ m0 :: ms, lo ≤ x)
              ∧ hi ∈ m0 :: ms ∧ (∀ x ∈ m0 :: ms, x ≤ hi)
              ∧ rep.startPeriod = fmtPeriod lo ∧ rep.endPeriod = fmtPeriod hi
              ∧ rep.nMissing = rep.missing.length
              ∧ ∃ idxs : List Nat, rep.missing = idxs.map fmtPeriod
                  ∧ idxs.Pairwise (· < ·)
                  ∧ (∀ k : Nat, k ∈ idxs ↔ lo < k ∧ k < hi ∧ k ∉ m0 :: ms))
      ∧ getMissingPeriodsJson [] = none
      ∧ (∀ (periods : List String) (s : String), s ∈ periods →
          (if periods.any (fun q => pyContains q "-") then parseDashPeriod s
           else parseCompactPeriod s) = none →
          getMissingPeriodsJson periods = none) := by
  refine ⟨?_, rfl, ?_⟩
  · intro periods m0 ms hp
    unfold getMissingPeriodsJson
    rw [hp]
    obtain ⟨hminmem, hminbd, hminseed⟩ := foldl_min_spec ms m0
    obtain ⟨hmaxmem, hmaxbd, hmaxseed⟩ := foldl_max_spec ms m0
    have hlomem : ms.foldl Nat.min m0 ∈ m0 :: ms := by
      rcases hminmem with h | h
      · rw [h]; exact List.mem_cons_self m0 ms
      · exact List.mem_cons_of_mem m0 h
    have hhimem : ms.foldl Nat.max m0 ∈ m0 :: ms := by
      rcases hmaxmem with h | h
      · rw [h]; exact List.mem_cons_self m0 ms
      · exact List.mem_cons_of_mem m0 h
    have hlobd : ∀ x ∈ m0 :: ms, ms.foldl Nat.min m0 ≤ x := by
      intro x hx
      rcases List.mem_cons.mp hx with h | h
      · rw [h]; exact hminseed
      · exact hminbd x h
    have hhibd : ∀ x ∈ m0 :: ms, x ≤ ms.foldl Nat.max m0 := by
      intro x hx
      rcases List.mem_cons.mp hx with h | h
      · rw [h]; exact hmaxseed
      · exact hmaxbd x h
    have hlohi : ms.foldl Nat.min m0 ≤ ms.foldl Nat.max m0 :=
      Nat.le_trans hminseed hmaxseed
    refine ⟨_, rfl, ms.foldl Nat.min m0, ms.foldl Nat.max m0,
      hlomem, hlobd, hhimem, hhibd, rfl, rfl, by rw [List.length_map], ?_⟩
    refine ⟨_, rfl, ?_, ?_⟩
    · exact List.Pairwise.filter _
        (monthsBetween_pairwise (ms.foldl Nat.min m0) (ms.foldl Nat.max m0 - ms.foldl Nat.min m0 + 1))
    · intro k
      constructor
      · intro hk
        obtain ⟨hk1, hk2⟩ := List.mem_filter.mp hk
        obtain ⟨hge, hle⟩ := (mem_monthsBetween _ _ k).mp hk1
        have hnot : k ∉ m0 :: ms := by
          simp only [Bool.not_eq_true'] at hk2
          simp at hk2
          simp [List.mem_cons]
          exact hk2
        have hne1 : k ≠ ms.foldl Nat.min m0 := fun he => hnot (he ▸ hlomem)
        have hne2 : k ≠ ms.foldl Nat.max m0 := fun he => hnot (he ▸ hhimem)
        refine ⟨by omega, by omega, hnot⟩
      · rintro ⟨hlt1, hlt2, hnot⟩
        refine List.mem_filter.mpr ⟨(mem_monthsBetween _ _ k).mpr ⟨by omega, by omega⟩, ?_⟩
        simp [hnot]
  · intro periods s hs hparse
    have hnone : parsePeriods periods = none := by
      simp only [parsePeriods]
      exact parseAll_none _ periods s hs hparse
    unfold getMissingPeriodsJson
    rw [hnone]

/-- Witness for C9 at the spec's example column. -/
theorem c9_gap_report_characterization_witness :
    ∃ rep, getMissingPeriodsJson ["2020-01", "2020-03", "2020-04"] = some rep
      ∧ ∃ lo hi,
          lo ∈ 24240 :: [24242, 24243] ∧ (∀ x ∈ 24240 :: [24242, 24243], lo ≤ x)
          ∧ hi ∈ 24240 :: [24242, 24243] ∧ (∀ x ∈ 24240 :: [24242, 24243], x ≤ hi)
          ∧ rep.startPeriod = fmtPeriod lo ∧ rep.endPeriod = fmtPeriod hi
          ∧ rep.nMissing = rep.missing.length
          ∧ ∃ idxs : List Nat, rep.missing = idxs.map fmtPeriod
              ∧ idxs.Pairwise (· < ·)
              ∧ (∀ k : Nat, k ∈ idxs ↔ lo < k ∧ k < hi ∧ k ∉ 24240 :: [24242, 24243]) :=
  c9_gap_report_characterization.1 ["2020-01", "2020-03", "2020-04"] 24240 [24242, 24243]
    (by decide)

/-- Witness for the amended C4 at the canonical six-digit period. -/
theorem c4_normalize_period_prefix_spec_witness :
    payNormalizePeriod (some "199712") = normalizePeriodSpec "199712" :=
  c4_normalize_period_prefix_spec "199712"

/-- Witness for C7 at a concrete one-table page. -/
theorem c7_schema_matcher_characterization_witness :
    findTableWithHeaders [wTable] = [wTable].find? weeksAccept
      ∧ countHeaderMatches (headerCells wHdrRow) = weeksHeaderScore (headerCells wHdrRow) :=
  ⟨c7_schema_matcher_characterization.1 [wTable],
   c7_schema_matcher_characterization.2.1 (headerCells wHdrRow)⟩
